import Mathlib

/-!
Shallow embedding of `src/dynamic_terminal.py` (repository
Sh1nJiTEITA/dynamicterminal).

The embedding covers the parts of the program the claims are about:

* the log-window state (`TLog._add_msg`, `TLog._redirect_strs`,
  `TLog.LogPos`, the numpy character buffer `self._data`);
* the window tree (`TWindow.__init__`, `TWindow.hsplit`,
  `TWindow.wsplit`, `TWindow.issplitted`).

Conventions used throughout:

* Python ints that are always non-negative in the modelled code paths
  (row/column coordinates, dimensions, message lengths) are `Nat`.
* The numpy buffer `np.full((h-2, w-2), '', dtype='U1')` is a
  `List (List (Option Char))`; the initial fill value `''` is
  `Option.none`, a written character `c` is `Option.some c`.
  numpy raises `ValueError` when a requested dimension is negative
  (in `Nat` terms: when `h < 2` or `w < 2`), and raises `IndexError`
  on an out-of-range element assignment; both are modelled with
  `Except.error ()`.
* The float split fraction `per` is modelled as an exact rational;
  Python `int(x)` (truncation towards zero, applied only to
  non-negative products here) is `(Int.floor x).toNat`.
-/

/-- The character buffer of a window: rows of optional characters
(`Option.none` is the numpy fill value `''`). -/
abbrev Buf := List (List (Option Char))

/-- Blank buffer of `n` rows and `m` columns, as produced by
`np.full((n, m), '', dtype='U1')` for non-negative `n, m`. -/
def blankBuf (n m : Nat) : Buf :=
  List.replicate n (List.replicate m Option.none)

/-- Read buffer cell `(r, c)`; out-of-range reads yield the fill value
(only used on in-range cells in the development). -/
def getCell (d : Buf) (r c : Nat) : Option Char :=
  (d.getD r []).getD c Option.none

/-- Write character `ch` into buffer cell `(r, c)`
(`self._data[row][col] = msg[ind]`); `List.set` is a no-op out of
range, the in-range check is done by the caller `writeCells`. -/
def setCell (d : Buf) (r c : Nat) (ch : Char) : Buf :=
  d.set r ((d.getD r []).set c (Option.some ch))

/-- The inner write loop of `TLog._add_msg` (source lines 440-448):
writes the characters of `msg` at the listed cells in order.  numpy
raises `IndexError` on an out-of-range index, and Python raises
`IndexError` when `ind` runs past the end of `msg`; both are
`Except.error ()`. -/
def writeCells (d : Buf) : List (Nat × Nat) → List Char → Except Unit Buf
  | [], _ => Except.ok d
  | (r, c) :: rest, ch :: ms =>
      if r < d.length ∧ c < (d.getD r []).length then
        writeCells (setCell d r c ch) rest ms
      else
        Except.error ()
  | _ :: _, [] => Except.error ()

namespace TLog

/-- `TLog.LogPos` (source lines 360-365): the inclusive row span and
the column span a wrapped message occupies inside the buffer. -/
structure LogPos where
  begin_row : Nat
  begin_col : Nat
  end_row : Nat
  end_col : Nat
deriving DecidableEq

/-- The state of a `TLog` window that `_add_msg` reads and writes:
the window dimensions `self._h`, `self._w`, the character buffer
`self._data` and the message-coordinate list `self.msg_coo`. -/
structure State where
  h : Nat
  w : Nat
  data : Buf
  msg_coo : List LogPos
deriving DecidableEq

/-- A freshly constructed `TLog(h, w)`: blank `(h-2, w-2)` buffer and
empty `msg_coo`. -/
def fresh (h w : Nat) : State :=
  ⟨h, w, blankBuf (h - 2) (w - 2), []⟩

/-- The start row chosen by `_add_msg` (source lines 417-420):
`msg_coo[-1].end_row + 1`, or `0` when `msg_coo` is empty. -/
def startRow (coo : List LogPos) : Nat :=
  match coo.getLast? with
  | Option.some p => p.end_row + 1
  | Option.none => 0

/-- The `LogPos` computed by `_add_msg` (source lines 422-433) for a
message of length `L` with single-line capacity `W = w - 2`:
one row when `L ≤ W`, otherwise `rows = L / W` extra rows with
`end_col = L - rows * W`.  The source computes
`rows = int(length / sng_ln_len)` with float division; for the int
ranges involved that is exact floor division, modelled as `Nat`
division. -/
def computeLogPos (W start L : Nat) : LogPos :=
  if L ≤ W then
    ⟨start, 0, start, L⟩
  else
    let rows := L / W
    ⟨start, 0, start + rows, L - rows * W⟩

/-- The columns the write loop of `_add_msg` touches on row `row` of
span `p`: `range(begin_col, end_col)` on the last row, `range(W)`
on every other row. -/
def rowCells (W : Nat) (p : LogPos) (row : Nat) : List Nat :=
  if row = p.end_row then
    List.range' p.begin_col (p.end_col - p.begin_col)
  else
    List.range W

/-- All cells the write loop of `_add_msg` touches for span `p`, in
write order: rows `begin_row .. end_row`, each with its `rowCells`. -/
def spanCells (W : Nat) (p : LogPos) : List (Nat × Nat) :=
  (List.range' p.begin_row (p.end_row + 1 - p.begin_row)).flatMap
    (fun row => (rowCells W p row).map (fun col => (row, col)))

/-- The `rows_to_erase` computation of `_redirect_strs` (source lines
399-410), including the early `break`: `rows_num` starts at
`new.end_row - new.begin_row` and each `LogPos` whose own row count
is at most the remaining `rows_num` contributes its row range. -/
def rowsToEraseAux : Nat → List LogPos → List Nat
  | _, [] => []
  | rows_num, p :: rest =>
      let delta := p.end_row - p.begin_row
      if delta ≤ rows_num then
        let acc := List.range' p.begin_row (p.end_row + 1 - p.begin_row)
        if rows_num - delta = 0 then acc
        else acc ++ rowsToEraseAux (rows_num - delta) rest
      else
        if rows_num = 0 then [] else rowsToEraseAux rows_num rest

/-- Rows `_redirect_strs` would erase for a newly appended span. -/
def rowsToErase (coo : List LogPos) (new : LogPos) : List Nat :=
  rowsToEraseAux (new.end_row - new.begin_row) coo

/-- `TLog._redirect_strs` (source lines 394-412).  When the occupied
span reaches `h - 2` it computes `rows_to_erase` and prints the
coordinate list, but it performs NO state mutation: neither
`msg_coo` nor `_data` is ever changed.  As a state transformer it
is therefore the identity. -/
def redirectStrs (st : State) (_new : LogPos) : State :=
  st

/-- `TLog._add_msg` (source lines 414-448): compute the new `LogPos`,
append it to `msg_coo`, call `_redirect_strs` (a no-op on the
state), then write the message characters into the buffer cell by
cell; an out-of-range write is numpy `IndexError`
(`Except.error ()`). -/
def addMsg (st : State) (msg : List Char) : Except Unit State :=
  let length := msg.length
  let sng_ln_len := st.w - 2
  let start_row := startRow st.msg_coo
  let new_log_pos := computeLogPos sng_ln_len start_row length
  let st1 : State := ⟨st.h, st.w, st.data, st.msg_coo ++ [new_log_pos]⟩
  let st2 := redirectStrs st1 new_log_pos
  match writeCells st2.data (spanCells sng_ln_len new_log_pos) msg with
  | Except.ok d2 => Except.ok ⟨st2.h, st2.w, d2, st2.msg_coo⟩
  | Except.error e => Except.error e

/-- A sequence of `_add_msg` calls; the first raised exception aborts
the sequence. -/
def addMsgs (st : State) : List (List Char) → Except Unit State
  | [] => Except.ok st
  | m :: ms =>
      match addMsg st m with
      | Except.ok st2 => addMsgs st2 ms
      | Except.error e => Except.error e

/-- Read back the buffer cells covered by span `p`, in the order the
write loop of `_add_msg` visits them. -/
def readSpan (d : Buf) (W : Nat) (p : LogPos) : List (Option Char) :=
  (spanCells W p).map (fun rc => getCell d rc.1 rc.2)

/-- Number of buffer rows a message of length `L` spans according to
`computeLogPos` (`end_row - begin_row + 1`). -/
def rowsOf (W L : Nat) : Nat :=
  if L ≤ W then 1 else L / W + 1

/-- Total number of buffer rows a list of messages spans. -/
def totalRows (W : Nat) (msgs : List (List Char)) : Nat :=
  (msgs.map (fun m => rowsOf W m.length)).sum

end TLog

/-- Projection out of a successful `TLog` computation (a fixed junk
state stands in for the unreachable error case). -/
def exOk (e : Except Unit TLog.State) : TLog.State :=
  match e with
  | Except.ok st => st
  | Except.error _ => TLog.fresh 0 0

/-- Whether a `TLog` computation raised. -/
def exIsErr (e : Except Unit TLog.State) : Bool :=
  match e with
  | Except.ok _ => false
  | Except.error _ => true

example :
    (exOk (TLog.addMsg (TLog.fresh 12 12) (List.replicate 11 'a'))).msg_coo
      = [⟨0, 0, 1, 1⟩] := by decide

example :
    (exOk (TLog.addMsg (TLog.fresh 12 12) (List.replicate 20 'a'))).msg_coo
      = [⟨0, 0, 2, 0⟩] := by decide

example :
    exIsErr (TLog.addMsgs (TLog.fresh 7 12)
      (List.replicate 6 (List.replicate 3 'a'))) = true := by decide

example :
    TLog.rowsToErase
      [⟨0, 0, 0, 3⟩, ⟨1, 0, 1, 3⟩, ⟨2, 0, 2, 3⟩, ⟨3, 0, 3, 3⟩,
        ⟨4, 0, 4, 3⟩, ⟨5, 0, 5, 3⟩] ⟨5, 0, 5, 3⟩ = [0] := by decide

/-- Python `int(q)` for the non-negative products `w * per` and
`h * per` that appear in `hsplit`/`wsplit`: truncation towards zero,
which equals the floor for non-negative arguments. -/
def pyInt (q : ℚ) : Nat :=
  (Int.floor q).toNat

/-- `TWindow` (source lines 175-188): rectangle `(r, c, h, w)`, title,
the two optional child pairs `self._hsplit` / `self._wsplit`, and
the character buffer `self._data`. -/
inductive TWindow : Type where
  | mk (r c h w : Nat) (title : String)
      (hspl wspl : Option (TWindow × TWindow)) (data : Buf) : TWindow
deriving Nonempty

namespace TWindow

/-- Row of the window rectangle (`self._r`). -/
def rOf : TWindow → Nat
  | .mk r _ _ _ _ _ _ _ => r

/-- Column of the window rectangle (`self._c`). -/
def cOf : TWindow → Nat
  | .mk _ c _ _ _ _ _ _ => c

/-- Height of the window rectangle (`self._h`). -/
def hOf : TWindow → Nat
  | .mk _ _ h _ _ _ _ _ => h

/-- Width of the window rectangle (`self._w`). -/
def wOf : TWindow → Nat
  | .mk _ _ _ w _ _ _ _ => w

/-- Title of the window (`self._title`). -/
def titleOf : TWindow → String
  | .mk _ _ _ _ t _ _ _ => t

/-- The `self._hsplit` field. -/
def hsplOf : TWindow → Option (TWindow × TWindow)
  | .mk _ _ _ _ _ hs _ _ => hs

/-- The `self._wsplit` field. -/
def wsplOf : TWindow → Option (TWindow × TWindow)
  | .mk _ _ _ _ _ _ ws _ => ws

/-- The buffer `self._data`. -/
def dataOf : TWindow → Buf
  | .mk _ _ _ _ _ _ _ d => d

/-- The rectangle `(row, col, height, width)` of a node. -/
def rectOf (n : TWindow) : Nat × Nat × Nat × Nat :=
  (n.rOf, n.cOf, n.hOf, n.wOf)

/-- `TWindow.__init__` (source lines 176-188): stores the rectangle
and title, allocates `np.full((h-2, w-2), '', dtype='U1')` and sets
both split fields to `None`.  numpy raises `ValueError` when a
dimension is negative, i.e. when `h < 2` or `w < 2`; no other
validation is performed. -/
def construct (r c h w : Nat) (title : String) : Except Unit TWindow :=
  if h < 2 ∨ w < 2 then
    Except.error ()
  else
    Except.ok (TWindow.mk r c h w title Option.none Option.none
      (blankBuf (h - 2) (w - 2)))

/-- `TWindow.issplitted` (source lines 275-276): truthiness of
`self._hsplit or self._wsplit`. -/
def issplitted (n : TWindow) : Bool :=
  n.hsplOf.isSome || n.wsplOf.isSome

/-- `TWindow.hsplit` (source lines 278-319) as a state transformer on
the tree.  An already-split node recurses the call into both
existing children (checking `_hsplit` first, as the source does)
and keeps its own fields; a leaf computes `left_col = int(w * per)`
and constructs the two children with the parent's row, height and
TITLE, the right child starting at `c + left_col` with width
`w - left_col`, then stores them in `_hsplit`.  Python returns the
child pair and mutates `self`; the embedding returns the mutated
node, whose children are the returned pair. -/
def hsplit (per : ℚ) : TWindow → Except Unit TWindow
  | .mk r c h w t (Option.some (a, b)) ws d =>
      match hsplit per a, hsplit per b with
      | Except.ok a2, Except.ok b2 =>
          Except.ok (TWindow.mk r c h w t (Option.some (a2, b2)) ws d)
      | Except.error e, _ => Except.error e
      | _, Except.error e => Except.error e
  | .mk r c h w t Option.none (Option.some (a, b)) d =>
      match hsplit per a, hsplit per b with
      | Except.ok a2, Except.ok b2 =>
          Except.ok (TWindow.mk r c h w t Option.none (Option.some (a2, b2)) d)
      | Except.error e, _ => Except.error e
      | _, Except.error e => Except.error e
  | .mk r c h w t Option.none Option.none d =>
      let left_col := pyInt ((w : ℚ) * per)
      match construct r c h left_col t,
          construct r (c + left_col) h (w - left_col) t with
      | Except.ok left, Except.ok right =>
          Except.ok (TWindow.mk r c h w t (Option.some (left, right))
            Option.none d)
      | Except.error e, _ => Except.error e
      | _, Except.error e => Except.error e

/-- `TWindow.wsplit` (source lines 321-346), analogous to `hsplit` on
the height: `top_row = int(h * per)`, the bottom child starts at
`r + top_row` with height `h - top_row`.  The children are
constructed WITHOUT the title argument (the source passes only
`r, c, h, w`, so the title takes its default `''`). -/
def wsplit (per : ℚ) : TWindow → Except Unit TWindow
  | .mk r c h w t (Option.some (a, b)) ws d =>
      match wsplit per a, wsplit per b with
      | Except.ok a2, Except.ok b2 =>
          Except.ok (TWindow.mk r c h w t (Option.some (a2, b2)) ws d)
      | Except.error e, _ => Except.error e
      | _, Except.error e => Except.error e
  | .mk r c h w t Option.none (Option.some (a, b)) d =>
      match wsplit per a, wsplit per b with
      | Except.ok a2, Except.ok b2 =>
          Except.ok (TWindow.mk r c h w t Option.none (Option.some (a2, b2)) d)
      | Except.error e, _ => Except.error e
      | _, Except.error e => Except.error e
  | .mk r c h w t Option.none Option.none d =>
      let top_row := pyInt ((h : ℚ) * per)
      match construct r c top_row w "",
          construct (r + top_row) c (h - top_row) w "" with
      | Except.ok top, Except.ok bot =>
          Except.ok (TWindow.mk r c h w t Option.none
            (Option.some (top, bot)) d)
      | Except.error e, _ => Except.error e
      | _, Except.error e => Except.error e

/-- Number of leaves of the window tree (a node with `_hsplit` set is
traversed through `_hsplit`, matching the order of the source's
checks). -/
def leafCount : TWindow → Nat
  | .mk _ _ _ _ _ (Option.some (a, b)) _ _ => leafCount a + leafCount b
  | .mk _ _ _ _ _ Option.none (Option.some (a, b)) _ =>
      leafCount a + leafCount b
  | .mk _ _ _ _ _ Option.none Option.none _ => 1

/-- Every node of the tree has at most one of its two split fields
set. -/
def oneAxisAll : TWindow → Bool
  | .mk _ _ _ _ _ (Option.some _) (Option.some _) _ => false
  | .mk _ _ _ _ _ (Option.some (a, b)) Option.none _ =>
      oneAxisAll a && oneAxisAll b
  | .mk _ _ _ _ _ Option.none (Option.some (a, b)) _ =>
      oneAxisAll a && oneAxisAll b
  | .mk _ _ _ _ _ Option.none Option.none _ => true

/-- The split axis of a node: `Option.some true` when `_hsplit` is
set, `Option.some false` when only `_wsplit` is set, `Option.none`
for a leaf (the order matches the source's truthiness checks). -/
def axisOf (n : TWindow) : Option Bool :=
  if n.hsplOf.isSome then Option.some true
  else if n.wsplOf.isSome then Option.some false
  else Option.none

end TWindow

/-- Projection out of a successful `TWindow` computation. -/
def exOkW (e : Except Unit TWindow) : TWindow :=
  match e with
  | Except.ok n => n
  | Except.error _ => TWindow.mk 0 0 0 0 "" Option.none Option.none []

/-- Trees reachable from a start node by any sequence of `hsplit` and
`wsplit` calls (with arbitrary fractions) that do not raise. -/
inductive Reach : TWindow → TWindow → Prop where
  | refl (n : TWindow) : Reach n n
  | hstep (per : ℚ) (n m k : TWindow) :
      Reach n m → TWindow.hsplit per m = Except.ok k → Reach n k
  | wstep (per : ℚ) (n m k : TWindow) :
      Reach n m → TWindow.wsplit per m = Except.ok k → Reach n k

example : TWindow.construct 1 1 2 5 "" = Except.ok
    (TWindow.mk 1 1 2 5 "" Option.none Option.none []) := by rfl

example : TWindow.construct 1 1 1 5 "" = Except.error () := by rfl

/-- Evaluation rule for `pyInt` at concrete rationals. -/
lemma pyInt_eq {q : ℚ} {n : Nat} (h1 : (n : ℚ) ≤ q) (h2 : q < (n : ℚ) + 1) :
    pyInt q = n := by
  have hfl : ⌊q⌋ = (n : ℤ) := by
    rw [Int.floor_eq_iff]
    constructor
    · exact_mod_cast h1
    · exact_mod_cast h2
  rw [pyInt, hfl]
  exact Int.toNat_natCast n

/-- C7: for every `height ≥ 3` and `width ≥ 3`, a freshly constructed
leaf window has a blank buffer of exactly `height - 2` rows and
`width - 2` columns. -/
theorem C7_construct_buffer_dims (r c h w : Nat) (t : String)
    (hh : 3 ≤ h) (hw : 3 ≤ w) :
    TWindow.construct r c h w t =
      Except.ok (TWindow.mk r c h w t Option.none Option.none
        (blankBuf (h - 2) (w - 2))) ∧
    (blankBuf (h - 2) (w - 2)).length = h - 2 ∧
    ∀ row ∈ blankBuf (h - 2) (w - 2),
      row.length = w - 2 ∧ ∀ cell ∈ row, cell = Option.none := by
  refine ⟨?_, ?_, ?_⟩
  · rw [TWindow.construct, if_neg (by omega)]
  · exact List.length_replicate _ _
  · intro row hrow
    rw [List.eq_of_mem_replicate hrow]
    exact ⟨List.length_replicate _ _, fun cell hc => List.eq_of_mem_replicate hc⟩

/-- C7 witness: a 3×3 window gets a 1×1 blank buffer. -/
theorem C7_witness :
    (3 ≤ 3) ∧
    (TWindow.construct 1 1 3 3 "t" =
      Except.ok (TWindow.mk 1 1 3 3 "t" Option.none Option.none
        (blankBuf 1 1)) ∧
    (blankBuf 1 1).length = 1 ∧
    ∀ row ∈ blankBuf 1 1,
      row.length = 1 ∧ ∀ cell ∈ row, cell = Option.none) :=
  ⟨by decide, C7_construct_buffer_dims 1 1 3 3 "t" (by decide) (by decide)⟩

/-- C4 (code bug): construction does NOT fail fast for `height < 3` or
`width < 3`.  `TWindow(1, 1, 2, 5)` silently succeeds with a buffer
of 0 rows (numpy accepts the zero dimension), and `hsplit(0.2)` on a
5×10 leaf silently produces a left child of width 2 whose buffer has
0 columns — no precondition check exists anywhere. -/
theorem C4_no_geometry_validation :
    TWindow.construct 1 1 2 5 "" =
      Except.ok (TWindow.mk 1 1 2 5 "" Option.none Option.none []) ∧
    TWindow.hsplit (1/5)
        (TWindow.mk 1 1 5 10 "" Option.none Option.none (blankBuf 3 8)) =
      Except.ok (TWindow.mk 1 1 5 10 ""
        (Option.some
          (TWindow.mk 1 1 5 2 "" Option.none Option.none (blankBuf 3 0),
           TWindow.mk 1 3 5 8 "" Option.none Option.none (blankBuf 3 6)))
        Option.none (blankBuf 3 8)) := by
  have hpy : pyInt (((10 : Nat) : ℚ) * (1/5)) = 2 :=
    pyInt_eq (by norm_num) (by norm_num)
  constructor
  · rfl
  · rw [TWindow.hsplit]
    rw [hpy]
    rfl

/-- C1 (code bug): eviction is computed but never performed.  In a
7×12 `TLog` (viewport `height - 2 = 5` rows), five 3-character
messages fill rows 0..4 and all five `LogPos` entries remain; for
the sixth message `_redirect_strs` computes that row 0 (the oldest
message) should be erased, but since it mutates nothing
(`redirectStrs` is the identity on the state), the sixth write
targets row 5 of the 5-row buffer and raises numpy `IndexError`
instead of evicting and shifting. -/
theorem C1_eviction_never_happens :
    (exOk (TLog.addMsgs (TLog.fresh 7 12)
        (List.replicate 5 (List.replicate 3 'a')))).msg_coo =
      [⟨0, 0, 0, 3⟩, ⟨1, 0, 1, 3⟩, ⟨2, 0, 2, 3⟩, ⟨3, 0, 3, 3⟩,
        ⟨4, 0, 4, 3⟩] ∧
    TLog.rowsToErase
      [⟨0, 0, 0, 3⟩, ⟨1, 0, 1, 3⟩, ⟨2, 0, 2, 3⟩, ⟨3, 0, 3, 3⟩,
        ⟨4, 0, 4, 3⟩, ⟨5, 0, 5, 3⟩] ⟨5, 0, 5, 3⟩ = [0] ∧
    TLog.redirectStrs (TLog.fresh 7 12) ⟨5, 0, 5, 3⟩ = TLog.fresh 7 12 ∧
    exIsErr (TLog.addMsgs (TLog.fresh 7 12)
      (List.replicate 6 (List.replicate 3 'a'))) = true := by
  exact ⟨by decide, by decide, rfl, by decide⟩

/-- C3 (code bug): a single message whose row span alone exceeds the
viewport is NOT truncated to its visible tail.  In a 5×12 `TLog`
(3-row, 10-column buffer) a 40-character message gets the span
`rows 0..4`; the write loop runs past the last buffer row and
raises numpy `IndexError` instead of rendering the tail rows. -/
theorem C3_overflow_raises_instead_of_truncating :
    TLog.computeLogPos 10 0 40 = ⟨0, 0, 4, 0⟩ ∧
    (TLog.fresh 5 12).data.length = 3 ∧
    exIsErr (TLog.addMsg (TLog.fresh 5 12) (List.replicate 40 'a')) = true := by
  exact ⟨by decide, by decide, by decide⟩

/-- C2 counterexample: with content width `W = 10`, a 20-character
message (so `L > W` and `W ∣ L`) gets the span `⟨0, 0, 2, 0⟩`,
occupying `end_row - begin_row + 1 = 3` buffer rows, not
`ceil(20/10) = 2` as the claim states — the final row of the span
is empty instead of full. -/
theorem C2_cex_full_last_row :
    (exOk (TLog.addMsg (TLog.fresh 12 12) (List.replicate 20 'a'))).msg_coo =
      [⟨0, 0, 2, 0⟩] ∧
    ¬ (2 - 0 + 1 = (20 + 10 - 1) / 10) := by
  exact ⟨by decide, by decide⟩

/-- Ceiling division collapses to one row for messages that fit. -/
lemma ceil_div_of_le {W L : Nat} (hW : 0 < W) (hL : 0 < L) (h : L ≤ W) :
    (L + W - 1) / W = 1 := by
  have hkey : L + W - 1 = (L - 1) + W := by omega
  rw [hkey, Nat.add_div_right _ hW, Nat.div_eq_of_lt (by omega)]

/-- Ceiling division is floor division plus one off multiples. -/
lemma ceil_div_of_not_dvd {W L : Nat} (hW : 0 < W) (hnd : ¬ W ∣ L) :
    (L + W - 1) / W = L / W + 1 := by
  have hr : L % W ≠ 0 := fun h => hnd (Nat.dvd_of_mod_eq_zero h)
  have hL : 0 < L := by
    rcases Nat.eq_zero_or_pos L with h0 | h
    · exact absurd (h0 ▸ Nat.dvd_zero W) hnd
    · exact h
  have hkey : L + W - 1 = (L - 1) + W := by omega
  rw [hkey, Nat.add_div_right _ hW]
  congr 1
  have hmod := Nat.mod_lt L hW
  have hdm := Nat.div_add_mod L W
  have hsplit2 : L - 1 = W * (L / W) + (L % W - 1) := by omega
  rw [hsplit2, Nat.mul_add_div hW]
  rw [Nat.div_eq_of_lt (show L % W - 1 < W by omega), Nat.add_zero]

/-- The source's `length - rows * sng_ln_len` is the remainder. -/
lemma sub_div_mul_eq_mod (W L : Nat) : L - L / W * W = L % W := by
  have hdm := Nat.div_add_mod L W
  have hc : L / W * W = W * (L / W) := Nat.mul_comm _ _
  rw [hc]
  omega

/-- C2 (amended): for a message of rendered length `L > 0` added to a
log window with content width `W = width - 2 > 0`, the appended
`LogPos` starts at the previous line's `end_row + 1` (or `0` with no
prior lines) and spans `ceil(L/W)` rows EXCEPT when `L > W` and `W`
divides `L`, where it spans `L/W + 1` rows; its last row holds `L`
characters when `L ≤ W` and `L mod W` characters otherwise
(so the last row is empty, not full, when the remainder is zero). -/
theorem C2_wrap_geometry (st st2 : TLog.State) (msg : List Char)
    (hW : 0 < st.w - 2) (hL : 0 < msg.length)
    (hok : TLog.addMsg st msg = Except.ok st2) :
    st2.msg_coo = st.msg_coo ++
      [TLog.computeLogPos (st.w - 2) (TLog.startRow st.msg_coo) msg.length] ∧
    (TLog.computeLogPos (st.w - 2) (TLog.startRow st.msg_coo)
        msg.length).begin_row = TLog.startRow st.msg_coo ∧
    TLog.startRow st.msg_coo =
      (match st.msg_coo.getLast? with
        | Option.some q => q.end_row + 1
        | Option.none => 0) ∧
    ((TLog.computeLogPos (st.w - 2) (TLog.startRow st.msg_coo)
          msg.length).end_row + 1
        - (TLog.computeLogPos (st.w - 2) (TLog.startRow st.msg_coo)
          msg.length).begin_row
      = if msg.length ≤ st.w - 2 ∨ ¬ (st.w - 2) ∣ msg.length
        then (msg.length + (st.w - 2) - 1) / (st.w - 2)
        else msg.length / (st.w - 2) + 1) ∧
    ((TLog.computeLogPos (st.w - 2) (TLog.startRow st.msg_coo)
          msg.length).end_col
        - (TLog.computeLogPos (st.w - 2) (TLog.startRow st.msg_coo)
          msg.length).begin_col
      = if msg.length ≤ st.w - 2 then msg.length
        else msg.length % (st.w - 2)) := by
  refine ⟨?_, ?_, rfl, ?_, ?_⟩
  · simp only [TLog.addMsg, TLog.redirectStrs] at hok
    split at hok
    · cases hok
      rfl
    · cases hok
  · unfold TLog.computeLogPos
    split
    · rfl
    · rfl
  · unfold TLog.computeLogPos
    by_cases hle : msg.length ≤ st.w - 2
    · rw [if_pos hle, if_pos (Or.inl hle)]
      dsimp only
      rw [ceil_div_of_le hW hL hle]
      omega
    · rw [if_neg hle]
      dsimp only
      by_cases hdvd : (st.w - 2) ∣ msg.length
      · rw [if_neg (by simp [hle, hdvd])]
        generalize msg.length / (st.w - 2) = q
        omega
      · rw [if_pos (Or.inr hdvd), ceil_div_of_not_dvd hW hdvd]
        generalize msg.length / (st.w - 2) = q
        omega
  · unfold TLog.computeLogPos
    by_cases hle : msg.length ≤ st.w - 2
    · rw [if_pos hle, if_pos hle]
      dsimp only
      exact Nat.sub_zero _
    · rw [if_neg hle, if_neg hle]
      dsimp only
      rw [Nat.sub_zero]
      exact sub_div_mul_eq_mod _ _

/-- C2 witness: scenario B — content width 10, message of 11
characters: spans rows 0..1, last row holds one character. -/
theorem C2_witness :
    0 < (TLog.fresh 12 12).w - 2 ∧ 0 < (List.replicate 11 'a').length ∧
    ((exOk (TLog.addMsg (TLog.fresh 12 12) (List.replicate 11 'a'))).msg_coo
        = (TLog.fresh 12 12).msg_coo ++
          [TLog.computeLogPos ((TLog.fresh 12 12).w - 2)
            (TLog.startRow (TLog.fresh 12 12).msg_coo)
            (List.replicate 11 'a').length] ∧
      (TLog.computeLogPos ((TLog.fresh 12 12).w - 2)
          (TLog.startRow (TLog.fresh 12 12).msg_coo)
          (List.replicate 11 'a').length).begin_row
        = TLog.startRow (TLog.fresh 12 12).msg_coo ∧
      TLog.startRow (TLog.fresh 12 12).msg_coo =
        (match (TLog.fresh 12 12).msg_coo.getLast? with
          | Option.some q => q.end_row + 1
          | Option.none => 0) ∧
      ((TLog.computeLogPos ((TLog.fresh 12 12).w - 2)
            (TLog.startRow (TLog.fresh 12 12).msg_coo)
            (List.replicate 11 'a').length).end_row + 1
          - (TLog.computeLogPos ((TLog.fresh 12 12).w - 2)
            (TLog.startRow (TLog.fresh 12 12).msg_coo)
            (List.replicate 11 'a').length).begin_row
        = if (List.replicate 11 'a').length ≤ (TLog.fresh 12 12).w - 2 ∨
              ¬ ((TLog.fresh 12 12).w - 2) ∣ (List.replicate 11 'a').length
          then ((List.replicate 11 'a').length + ((TLog.fresh 12 12).w - 2) - 1)
              / ((TLog.fresh 12 12).w - 2)
          else (List.replicate 11 'a').length / ((TLog.fresh 12 12).w - 2) + 1) ∧
      ((TLog.computeLogPos ((TLog.fresh 12 12).w - 2)
            (TLog.startRow (TLog.fresh 12 12).msg_coo)
            (List.replicate 11 'a').length).end_col
          - (TLog.computeLogPos ((TLog.fresh 12 12).w - 2)
            (TLog.startRow (TLog.fresh 12 12).msg_coo)
            (List.replicate 11 'a').length).begin_col
        = if (List.replicate 11 'a').length ≤ (TLog.fresh 12 12).w - 2
          then (List.replicate 11 'a').length
          else (List.replicate 11 'a').length % ((TLog.fresh 12 12).w - 2))) :=
  ⟨by decide, by decide,
    C2_wrap_geometry (TLog.fresh 12 12)
      (exOk (TLog.addMsg (TLog.fresh 12 12) (List.replicate 11 'a')))
      (List.replicate 11 'a') (by decide) (by decide) rfl⟩

/-- Inversion for `TWindow.construct`: it succeeds exactly when both
numpy dimensions `h - 2`, `w - 2` are non-negative, and then yields
the blank leaf. -/
lemma construct_ok_iff {r c h w : Nat} {t : String} {n : TWindow} :
    TWindow.construct r c h w t = Except.ok n ↔
      2 ≤ h ∧ 2 ≤ w ∧
      n = TWindow.mk r c h w t Option.none Option.none
        (blankBuf (h - 2) (w - 2)) := by
  unfold TWindow.construct
  by_cases hc : h < 2 ∨ w < 2
  · rw [if_pos hc]
    constructor
    · intro he
      cases he
    · rintro ⟨h1, h2, -⟩
      omega
  · rw [if_neg hc]
    constructor
    · intro he
      cases he
      exact ⟨by omega, by omega, rfl⟩
    · rintro ⟨-, -, hn⟩
      rw [hn]

/-- Forward evaluation of `TWindow.construct` on valid dimensions. -/
lemma construct_eq_ok {r c h w : Nat} (t : String) (hh : 2 ≤ h) (hw : 2 ≤ w) :
    TWindow.construct r c h w t =
      Except.ok (TWindow.mk r c h w t Option.none Option.none
        (blankBuf (h - 2) (w - 2))) := by
  rw [TWindow.construct, if_neg (by omega)]

/-- Forward evaluation of `TWindow.hsplit` on a leaf whose two children
are constructible. -/
lemma hsplit_leaf_eq (per : ℚ) (r c h w : Nat) (t : String) (d : Buf)
    (hh : 2 ≤ h) (hl : 2 ≤ pyInt ((w : ℚ) * per))
    (hr2 : 2 ≤ w - pyInt ((w : ℚ) * per)) :
    TWindow.hsplit per (TWindow.mk r c h w t Option.none Option.none d) =
      Except.ok (TWindow.mk r c h w t
        (Option.some
          (TWindow.mk r c h (pyInt ((w : ℚ) * per)) t Option.none Option.none
            (blankBuf (h - 2) (pyInt ((w : ℚ) * per) - 2)),
           TWindow.mk r (c + pyInt ((w : ℚ) * per)) h
            (w - pyInt ((w : ℚ) * per)) t Option.none Option.none
            (blankBuf (h - 2) (w - pyInt ((w : ℚ) * per) - 2))))
        Option.none d) := by
  rw [TWindow.hsplit]
  rw [construct_eq_ok t hh hl, construct_eq_ok t hh hr2]

/-- Forward evaluation of `TWindow.wsplit` on a leaf whose two children
are constructible; note the children get the empty title. -/
lemma wsplit_leaf_eq (per : ℚ) (r c h w : Nat) (t : String) (d : Buf)
    (ht : 2 ≤ pyInt ((h : ℚ) * per))
    (hb : 2 ≤ h - pyInt ((h : ℚ) * per)) (hw : 2 ≤ w) :
    TWindow.wsplit per (TWindow.mk r c h w t Option.none Option.none d) =
      Except.ok (TWindow.mk r c h w t Option.none
        (Option.some
          (TWindow.mk r c (pyInt ((h : ℚ) * per)) w "" Option.none Option.none
            (blankBuf (pyInt ((h : ℚ) * per) - 2) (w - 2)),
           TWindow.mk (r + pyInt ((h : ℚ) * per)) c
            (h - pyInt ((h : ℚ) * per)) w "" Option.none Option.none
            (blankBuf (h - pyInt ((h : ℚ) * per) - 2) (w - 2))))
        d) := by
  rw [TWindow.wsplit]
  rw [construct_eq_ok "" ht hw, construct_eq_ok "" hb hw]

/-- Inversion of `TWindow.hsplit` on a leaf. -/
lemma hsplit_leaf_inv (per : ℚ) (r c h w : Nat) (t : String) (d : Buf)
    (n2 : TWindow)
    (hok : TWindow.hsplit per (TWindow.mk r c h w t Option.none Option.none d)
      = Except.ok n2) :
    2 ≤ h ∧ 2 ≤ pyInt ((w : ℚ) * per) ∧ 2 ≤ w - pyInt ((w : ℚ) * per) ∧
    n2 = TWindow.mk r c h w t
      (Option.some
        (TWindow.mk r c h (pyInt ((w : ℚ) * per)) t Option.none Option.none
          (blankBuf (h - 2) (pyInt ((w : ℚ) * per) - 2)),
         TWindow.mk r (c + pyInt ((w : ℚ) * per)) h
          (w - pyInt ((w : ℚ) * per)) t Option.none Option.none
          (blankBuf (h - 2) (w - pyInt ((w : ℚ) * per) - 2))))
      Option.none d := by
  rw [TWindow.hsplit] at hok
  cases e1 : TWindow.construct r c h (pyInt ((w : ℚ) * per)) t with
  | error err =>
      rw [e1] at hok
      cases e2 : TWindow.construct r (c + pyInt ((w : ℚ) * per)) h
          (w - pyInt ((w : ℚ) * per)) t with
      | error err2 =>
          rw [e2] at hok
          cases hok
      | ok right =>
          rw [e2] at hok
          cases hok
  | ok left =>
      cases e2 : TWindow.construct r (c + pyInt ((w : ℚ) * per)) h
          (w - pyInt ((w : ℚ) * per)) t with
      | error err =>
          rw [e1, e2] at hok
          cases hok
      | ok right =>
          rw [e1, e2] at hok
          cases hok
          rcases construct_ok_iff.mp e1 with ⟨hh, hl, rfl⟩
          rcases construct_ok_iff.mp e2 with ⟨-, hr2, rfl⟩
          exact ⟨hh, hl, hr2, rfl⟩

/-- Inversion of `TWindow.wsplit` on a leaf. -/
lemma wsplit_leaf_inv (per : ℚ) (r c h w : Nat) (t : String) (d : Buf)
    (n2 : TWindow)
    (hok : TWindow.wsplit per (TWindow.mk r c h w t Option.none Option.none d)
      = Except.ok n2) :
    2 ≤ pyInt ((h : ℚ) * per) ∧ 2 ≤ h - pyInt ((h : ℚ) * per) ∧ 2 ≤ w ∧
    n2 = TWindow.mk r c h w t Option.none
      (Option.some
        (TWindow.mk r c (pyInt ((h : ℚ) * per)) w "" Option.none Option.none
          (blankBuf (pyInt ((h : ℚ) * per) - 2) (w - 2)),
         TWindow.mk (r + pyInt ((h : ℚ) * per)) c
          (h - pyInt ((h : ℚ) * per)) w "" Option.none Option.none
          (blankBuf (h - pyInt ((h : ℚ) * per) - 2) (w - 2))))
      d := by
  rw [TWindow.wsplit] at hok
  cases e1 : TWindow.construct r c (pyInt ((h : ℚ) * per)) w "" with
  | error err =>
      rw [e1] at hok
      cases e2 : TWindow.construct (r + pyInt ((h : ℚ) * per)) c
          (h - pyInt ((h : ℚ) * per)) w "" with
      | error err2 =>
          rw [e2] at hok
          cases hok
      | ok bot =>
          rw [e2] at hok
          cases hok
  | ok top =>
      cases e2 : TWindow.construct (r + pyInt ((h : ℚ) * per)) c
          (h - pyInt ((h : ℚ) * per)) w "" with
      | error err =>
          rw [e1, e2] at hok
          cases hok
      | ok bot =>
          rw [e1, e2] at hok
          cases hok
          rcases construct_ok_iff.mp e1 with ⟨ht, hw, rfl⟩
          rcases construct_ok_iff.mp e2 with ⟨hb, -, rfl⟩
          exact ⟨ht, hb, hw, rfl⟩

/-- For a fraction at most one, `int(w * per)` never exceeds `w`. -/
lemma pyInt_mul_le (w : Nat) (per : ℚ) (hp1 : per ≤ 1) :
    pyInt ((w : ℚ) * per) ≤ w := by
  have h1 : (w : ℚ) * per ≤ (w : ℚ) := by
    calc (w : ℚ) * per ≤ (w : ℚ) * 1 :=
          mul_le_mul_of_nonneg_left hp1 (by positivity)
      _ = (w : ℚ) := mul_one _
  have h2 : ⌊(w : ℚ) * per⌋ ≤ ⌊(w : ℚ)⌋ := Int.floor_le_floor h1
  rw [Int.floor_natCast] at h2
  unfold pyInt
  omega

/-- C5: `hsplit(per)` and `wsplit(per)` with `0 < per < 1` on a leaf
partition the parent rectangle exactly: for `hsplit` the left child
has width `int(w * per)`, the widths sum to the parent width, the
right child starts at `col + left_width` and both children keep the
parent's row and height; `wsplit` is symmetric on the height. -/
theorem C5_split_partition (per : ℚ) (n : TWindow)
    (hleaf : TWindow.issplitted n = false)
    (_hp0 : 0 < per) (hp1 : per < 1) :
    (∀ n2 l rt, TWindow.hsplit per n = Except.ok n2 →
      TWindow.hsplOf n2 = Option.some (l, rt) →
      TWindow.wOf l = pyInt ((TWindow.wOf n : ℚ) * per) ∧
      TWindow.wOf l + TWindow.wOf rt = TWindow.wOf n ∧
      TWindow.cOf l = TWindow.cOf n ∧
      TWindow.cOf rt = TWindow.cOf n + TWindow.wOf l ∧
      TWindow.rOf l = TWindow.rOf n ∧ TWindow.rOf rt = TWindow.rOf n ∧
      TWindow.hOf l = TWindow.hOf n ∧ TWindow.hOf rt = TWindow.hOf n) ∧
    (∀ n2 tp bt, TWindow.wsplit per n = Except.ok n2 →
      TWindow.wsplOf n2 = Option.some (tp, bt) →
      TWindow.hOf tp = pyInt ((TWindow.hOf n : ℚ) * per) ∧
      TWindow.hOf tp + TWindow.hOf bt = TWindow.hOf n ∧
      TWindow.rOf tp = TWindow.rOf n ∧
      TWindow.rOf bt = TWindow.rOf n + TWindow.hOf tp ∧
      TWindow.cOf tp = TWindow.cOf n ∧ TWindow.cOf bt = TWindow.cOf n ∧
      TWindow.wOf tp = TWindow.wOf n ∧ TWindow.wOf bt = TWindow.wOf n) := by
  cases n with
  | mk r c h w t hs ws d =>
    cases hs with
    | some pr =>
        simp [TWindow.issplitted, TWindow.hsplOf] at hleaf
    | none =>
      cases ws with
      | some pr =>
          simp [TWindow.issplitted, TWindow.hsplOf, TWindow.wsplOf] at hleaf
      | none =>
        constructor
        · intro n2 l rt hok hch
          rcases hsplit_leaf_inv per r c h w t d n2 hok with ⟨hh, hl, hr2, rfl⟩
          rw [TWindow.hsplOf] at hch
          injection hch with h1
          injection h1 with h2 h3
          subst h2
          subst h3
          have hle : pyInt ((w : ℚ) * per) ≤ w := pyInt_mul_le w per hp1.le
          exact ⟨rfl, by dsimp [TWindow.wOf]; omega, rfl, rfl, rfl, rfl,
            rfl, rfl⟩
        · intro n2 tp bt hok hch
          rcases wsplit_leaf_inv per r c h w t d n2 hok with ⟨ht, hb, hw2, rfl⟩
          rw [TWindow.wsplOf] at hch
          injection hch with h1
          injection h1 with h2 h3
          subst h2
          subst h3
          have hle : pyInt ((h : ℚ) * per) ≤ h := pyInt_mul_le h per hp1.le
          exact ⟨rfl, by dsimp [TWindow.hOf]; omega, rfl, rfl, rfl, rfl,
            rfl, rfl⟩

/-- C5 witness window: scenario D, a 20-row, 10-column leaf. -/
def C5win : TWindow :=
  TWindow.mk 1 1 20 10 "" Option.none Option.none (blankBuf 18 8)

/-- Result of `wsplit(0.3)` on the C5 witness window. -/
def C5res : TWindow := exOkW (TWindow.wsplit (3/10) C5win)

/-- Top child of the C5 witness split. -/
def C5top : TWindow := ((TWindow.wsplOf C5res).getD (C5win, C5win)).1

/-- Bottom child of the C5 witness split. -/
def C5bot : TWindow := ((TWindow.wsplOf C5res).getD (C5win, C5win)).2

/-- C5 witness: scenario D — `wsplit(0.3)` on a 20-row window yields
top height 6 and bottom height 14, partitioning the parent. -/
theorem C5_witness :
    TWindow.issplitted C5win = false ∧ (0 : ℚ) < 3/10 ∧ (3/10 : ℚ) < 1 ∧
    (TWindow.hOf C5top = pyInt ((TWindow.hOf C5win : ℚ) * (3/10)) ∧
      TWindow.hOf C5top + TWindow.hOf C5bot = TWindow.hOf C5win ∧
      TWindow.rOf C5top = TWindow.rOf C5win ∧
      TWindow.rOf C5bot = TWindow.rOf C5win + TWindow.hOf C5top ∧
      TWindow.cOf C5top = TWindow.cOf C5win ∧
      TWindow.cOf C5bot = TWindow.cOf C5win ∧
      TWindow.wOf C5top = TWindow.wOf C5win ∧
      TWindow.wOf C5bot = TWindow.wOf C5win) ∧
    TWindow.hOf C5top = 6 ∧ TWindow.hOf C5bot = 14 := by
  have hpy : pyInt (((20 : Nat) : ℚ) * (3/10)) = 6 :=
    pyInt_eq (by norm_num) (by norm_num)
  have heq := wsplit_leaf_eq (3/10) 1 1 20 10 "" (blankBuf 18 8)
    (by rw [hpy]; omega) (by rw [hpy]; omega) (by omega)
  rw [hpy] at heq
  have hres : C5res = TWindow.mk 1 1 20 10 "" Option.none
      (Option.some
        (TWindow.mk 1 1 6 10 "" Option.none Option.none (blankBuf 4 8),
         TWindow.mk 7 1 14 10 "" Option.none Option.none (blankBuf 12 8)))
      (blankBuf 18 8) := by
    unfold C5res C5win
    rw [heq]
    rfl
  have hok : TWindow.wsplit (3/10) C5win = Except.ok C5res := by
    rw [hres]
    exact heq
  have hch : TWindow.wsplOf C5res = Option.some (C5top, C5bot) := by
    unfold C5top C5bot
    rw [hres]
    rfl
  refine ⟨rfl, by norm_num, by norm_num, ?_, ?_, ?_⟩
  · exact (C5_split_partition (3/10) C5win rfl (by norm_num)
      (by norm_num)).2 C5res C5top C5bot hok hch
  · unfold C5top
    rw [hres]
    rfl
  · unfold C5bot
    rw [hres]
    rfl

/-- C9: title propagation under splitting is asymmetric — on a leaf,
`hsplit` constructs both children with the parent's title, while
`wsplit` constructs both children with the empty title (the source
omits the title argument), so after `wsplit` neither child carries
the parent's title. -/
theorem C9_title_asymmetry (per : ℚ) (n : TWindow)
    (hleaf : TWindow.issplitted n = false) :
    (∀ n2 l rt, TWindow.hsplit per n = Except.ok n2 →
      TWindow.hsplOf n2 = Option.some (l, rt) →
      TWindow.titleOf l = TWindow.titleOf n ∧
      TWindow.titleOf rt = TWindow.titleOf n) ∧
    (∀ n2 tp bt, TWindow.wsplit per n = Except.ok n2 →
      TWindow.wsplOf n2 = Option.some (tp, bt) →
      TWindow.titleOf tp = "" ∧ TWindow.titleOf bt = "") := by
  cases n with
  | mk r c h w t hs ws d =>
    cases hs with
    | some pr =>
        simp [TWindow.issplitted, TWindow.hsplOf] at hleaf
    | none =>
      cases ws with
      | some pr =>
          simp [TWindow.issplitted, TWindow.hsplOf, TWindow.wsplOf] at hleaf
      | none =>
        constructor
        · intro n2 l rt hok hch
          rcases hsplit_leaf_inv per r c h w t d n2 hok with ⟨-, -, -, rfl⟩
          rw [TWindow.hsplOf] at hch
          injection hch with h1
          injection h1 with h2 h3
          subst h2
          subst h3
          exact ⟨rfl, rfl⟩
        · intro n2 tp bt hok hch
          rcases wsplit_leaf_inv per r c h w t d n2 hok with ⟨-, -, -, rfl⟩
          rw [TWindow.wsplOf] at hch
          injection hch with h1
          injection h1 with h2 h3
          subst h2
          subst h3
          exact ⟨rfl, rfl⟩

/-- C9 witness window: a 6×6 leaf titled "abc". -/
def C9win : TWindow :=
  TWindow.mk 2 2 6 6 "abc" Option.none Option.none (blankBuf 4 4)

/-- Result of `hsplit(0.5)` on the C9 witness window. -/
def C9hres : TWindow := exOkW (TWindow.hsplit (1/2) C9win)

/-- Result of `wsplit(0.5)` on the C9 witness window. -/
def C9wres : TWindow := exOkW (TWindow.wsplit (1/2) C9win)

/-- C9 witness: after `hsplit(0.5)` both children of the "abc" window
are titled "abc"; after `wsplit(0.5)` both children are untitled. -/
theorem C9_witness :
    TWindow.issplitted C9win = false ∧
    (TWindow.titleOf ((TWindow.hsplOf C9hres).getD (C9win, C9win)).1
        = TWindow.titleOf C9win ∧
      TWindow.titleOf ((TWindow.hsplOf C9hres).getD (C9win, C9win)).2
        = TWindow.titleOf C9win) ∧
    (TWindow.titleOf ((TWindow.wsplOf C9wres).getD (C9win, C9win)).1 = "" ∧
      TWindow.titleOf ((TWindow.wsplOf C9wres).getD (C9win, C9win)).2 = "") := by
  have hpy : pyInt (((6 : Nat) : ℚ) * (1/2)) = 3 :=
    pyInt_eq (by norm_num) (by norm_num)
  have heqh := hsplit_leaf_eq (1/2) 2 2 6 6 "abc" (blankBuf 4 4)
    (by omega) (by rw [hpy]; omega) (by rw [hpy]; omega)
  rw [hpy] at heqh
  have heqw := wsplit_leaf_eq (1/2) 2 2 6 6 "abc" (blankBuf 4 4)
    (by rw [hpy]; omega) (by rw [hpy]; omega) (by omega)
  rw [hpy] at heqw
  have hresh : C9hres = TWindow.mk 2 2 6 6 "abc"
      (Option.some
        (TWindow.mk 2 2 6 3 "abc" Option.none Option.none (blankBuf 4 1),
         TWindow.mk 2 5 6 3 "abc" Option.none Option.none (blankBuf 4 1)))
      Option.none (blankBuf 4 4) := by
    unfold C9hres C9win
    rw [heqh]
    rfl
  have hresw : C9wres = TWindow.mk 2 2 6 6 "abc" Option.none
      (Option.some
        (TWindow.mk 2 2 3 6 "" Option.none Option.none (blankBuf 1 4),
         TWindow.mk 5 2 3 6 "" Option.none Option.none (blankBuf 1 4)))
      (blankBuf 4 4) := by
    unfold C9wres C9win
    rw [heqw]
    rfl
  have hokh : TWindow.hsplit (1/2) C9win = Except.ok C9hres := by
    rw [hresh]
    exact heqh
  have hokw : TWindow.wsplit (1/2) C9win = Except.ok C9wres := by
    rw [hresw]
    exact heqw
  have hchh : TWindow.hsplOf C9hres =
      Option.some (((TWindow.hsplOf C9hres).getD (C9win, C9win)).1,
        ((TWindow.hsplOf C9hres).getD (C9win, C9win)).2) := by
    rw [hresh]
    rfl
  have hchw : TWindow.wsplOf C9wres =
      Option.some (((TWindow.wsplOf C9wres).getD (C9win, C9win)).1,
        ((TWindow.wsplOf C9wres).getD (C9win, C9win)).2) := by
    rw [hresw]
    rfl
  refine ⟨rfl, ?_, ?_⟩
  · exact (C9_title_asymmetry (1/2) C9win rfl).1 C9hres _ _ hokh hchh
  · exact (C9_title_asymmetry (1/2) C9win rfl).2 C9wres _ _ hokw hchw

/-- A successful `hsplit` doubles the number of leaves of the tree. -/
theorem hsplit_leafCount (per : ℚ) :
    ∀ (n n2 : TWindow), TWindow.hsplit per n = Except.ok n2 →
      TWindow.leafCount n2 = 2 * TWindow.leafCount n
  | TWindow.mk r c h w t (Option.some (a, b)) ws d, n2, hok => by
      rw [TWindow.hsplit] at hok
      cases e1 : TWindow.hsplit per a with
      | error err =>
          cases e2 : TWindow.hsplit per b with
          | error err2 => rw [e1, e2] at hok; cases hok
          | ok b2 => rw [e1, e2] at hok; cases hok
      | ok a2 =>
          cases e2 : TWindow.hsplit per b with
          | error err2 => rw [e1, e2] at hok; cases hok
          | ok b2 =>
              rw [e1, e2] at hok
              cases hok
              have ih1 := hsplit_leafCount per a a2 e1
              have ih2 := hsplit_leafCount per b b2 e2
              simp only [TWindow.leafCount]
              omega
  | TWindow.mk r c h w t Option.none (Option.some (a, b)) d, n2, hok => by
      rw [TWindow.hsplit] at hok
      cases e1 : TWindow.hsplit per a with
      | error err =>
          cases e2 : TWindow.hsplit per b with
          | error err2 => rw [e1, e2] at hok; cases hok
          | ok b2 => rw [e1, e2] at hok; cases hok
      | ok a2 =>
          cases e2 : TWindow.hsplit per b with
          | error err2 => rw [e1, e2] at hok; cases hok
          | ok b2 =>
              rw [e1, e2] at hok
              cases hok
              have ih1 := hsplit_leafCount per a a2 e1
              have ih2 := hsplit_leafCount per b b2 e2
              simp only [TWindow.leafCount]
              omega
  | TWindow.mk r c h w t Option.none Option.none d, n2, hok => by
      rcases hsplit_leaf_inv per r c h w t d n2 hok with ⟨-, -, -, rfl⟩
      simp only [TWindow.leafCount]

/-- A successful `wsplit` doubles the number of leaves of the tree. -/
theorem wsplit_leafCount (per : ℚ) :
    ∀ (n n2 : TWindow), TWindow.wsplit per n = Except.ok n2 →
      TWindow.leafCount n2 = 2 * TWindow.leafCount n
  | TWindow.mk r c h w t (Option.some (a, b)) ws d, n2, hok => by
      rw [TWindow.wsplit] at hok
      cases e1 : TWindow.wsplit per a with
      | error err =>
          cases e2 : TWindow.wsplit per b with
          | error err2 => rw [e1, e2] at hok; cases hok
          | ok b2 => rw [e1, e2] at hok; cases hok
      | ok a2 =>
          cases e2 : TWindow.wsplit per b with
          | error err2 => rw [e1, e2] at hok; cases hok
          | ok b2 =>
              rw [e1, e2] at hok
              cases hok
              have ih1 := wsplit_leafCount per a a2 e1
              have ih2 := wsplit_leafCount per b b2 e2
              simp only [TWindow.leafCount]
              omega
  | TWindow.mk r c h w t Option.none (Option.some (a, b)) d, n2, hok => by
      rw [TWindow.wsplit] at hok
      cases e1 : TWindow.wsplit per a with
      | error err =>
          cases e2 : TWindow.wsplit per b with
          | error err2 => rw [e1, e2] at hok; cases hok
          | ok b2 => rw [e1, e2] at hok; cases hok
      | ok a2 =>
          cases e2 : TWindow.wsplit per b with
          | error err2 => rw [e1, e2] at hok; cases hok
          | ok b2 =>
              rw [e1, e2] at hok
              cases hok
              have ih1 := wsplit_leafCount per a a2 e1
              have ih2 := wsplit_leafCount per b b2 e2
              simp only [TWindow.leafCount]
              omega
  | TWindow.mk r c h w t Option.none Option.none d, n2, hok => by
      rcases wsplit_leaf_inv per r c h w t d n2 hok with ⟨-, -, -, rfl⟩
      simp only [TWindow.leafCount]

/-- A successful `hsplit` preserves the one-axis-per-node invariant. -/
theorem oneAxisAll_hsplit (per : ℚ) :
    ∀ (n n2 : TWindow), TWindow.oneAxisAll n = true →
      TWindow.hsplit per n = Except.ok n2 → TWindow.oneAxisAll n2 = true
  | TWindow.mk r c h w t (Option.some (a, b)) (Option.some pr) d, n2, hax,
      hok => by
      simp only [TWindow.oneAxisAll] at hax
      cases hax
  | TWindow.mk r c h w t (Option.some (a, b)) Option.none d, n2, hax, hok => by
      rw [TWindow.hsplit] at hok
      simp only [TWindow.oneAxisAll, Bool.and_eq_true] at hax
      cases e1 : TWindow.hsplit per a with
      | error err =>
          cases e2 : TWindow.hsplit per b with
          | error err2 => rw [e1, e2] at hok; cases hok
          | ok b2 => rw [e1, e2] at hok; cases hok
      | ok a2 =>
          cases e2 : TWindow.hsplit per b with
          | error err2 => rw [e1, e2] at hok; cases hok
          | ok b2 =>
              rw [e1, e2] at hok
              cases hok
              have ih1 := oneAxisAll_hsplit per a a2 hax.1 e1
              have ih2 := oneAxisAll_hsplit per b b2 hax.2 e2
              simp only [TWindow.oneAxisAll, Bool.and_eq_true]
              exact ⟨ih1, ih2⟩
  | TWindow.mk r c h w t Option.none (Option.some (a, b)) d, n2, hax, hok => by
      rw [TWindow.hsplit] at hok
      simp only [TWindow.oneAxisAll, Bool.and_eq_true] at hax
      cases e1 : TWindow.hsplit per a with
      | error err =>
          cases e2 : TWindow.hsplit per b with
          | error err2 => rw [e1, e2] at hok; cases hok
          | ok b2 => rw [e1, e2] at hok; cases hok
      | ok a2 =>
          cases e2 : TWindow.hsplit per b with
          | error err2 => rw [e1, e2] at hok; cases hok
          | ok b2 =>
              rw [e1, e2] at hok
              cases hok
              have ih1 := oneAxisAll_hsplit per a a2 hax.1 e1
              have ih2 := oneAxisAll_hsplit per b b2 hax.2 e2
              simp only [TWindow.oneAxisAll, Bool.and_eq_true]
              exact ⟨ih1, ih2⟩
  | TWindow.mk r c h w t Option.none Option.none d, n2, hax, hok => by
      rcases hsplit_leaf_inv per r c h w t d n2 hok with ⟨-, -, -, rfl⟩
      simp only [TWindow.oneAxisAll]
      rfl

/-- A successful `wsplit` preserves the one-axis-per-node invariant. -/
theorem oneAxisAll_wsplit (per : ℚ) :
    ∀ (n n2 : TWindow), TWindow.oneAxisAll n = true →
      TWindow.wsplit per n = Except.ok n2 → TWindow.oneAxisAll n2 = true
  | TWindow.mk r c h w t (Option.some (a, b)) (Option.some pr) d, n2, hax,
      hok => by
      simp only [TWindow.oneAxisAll] at hax
      cases hax
  | TWindow.mk r c h w t (Option.some (a, b)) Option.none d, n2, hax, hok => by
      rw [TWindow.wsplit] at hok
      simp only [TWindow.oneAxisAll, Bool.and_eq_true] at hax
      cases e1 : TWindow.wsplit per a with
      | error err =>
          cases e2 : TWindow.wsplit per b with
          | error err2 => rw [e1, e2] at hok; cases hok
          | ok b2 => rw [e1, e2] at hok; cases hok
      | ok a2 =>
          cases e2 : TWindow.wsplit per b with
          | error err2 => rw [e1, e2] at hok; cases hok
          | ok b2 =>
              rw [e1, e2] at hok
              cases hok
              have ih1 := oneAxisAll_wsplit per a a2 hax.1 e1
              have ih2 := oneAxisAll_wsplit per b b2 hax.2 e2
              simp only [TWindow.oneAxisAll, Bool.and_eq_true]
              exact ⟨ih1, ih2⟩
  | TWindow.mk r c h w t Option.none (Option.some (a, b)) d, n2, hax, hok => by
      rw [TWindow.wsplit] at hok
      simp only [TWindow.oneAxisAll, Bool.and_eq_true] at hax
      cases e1 : TWindow.wsplit per a with
      | error err =>
          cases e2 : TWindow.wsplit per b with
          | error err2 => rw [e1, e2] at hok; cases hok
          | ok b2 => rw [e1, e2] at hok; cases hok
      | ok a2 =>
          cases e2 : TWindow.wsplit per b with
          | error err2 => rw [e1, e2] at hok; cases hok
          | ok b2 =>
              rw [e1, e2] at hok
              cases hok
              have ih1 := oneAxisAll_wsplit per a a2 hax.1 e1
              have ih2 := oneAxisAll_wsplit per b b2 hax.2 e2
              simp only [TWindow.oneAxisAll, Bool.and_eq_true]
              exact ⟨ih1, ih2⟩
  | TWindow.mk r c h w t Option.none Option.none d, n2, hax, hok => by
      rcases wsplit_leaf_inv per r c h w t d n2 hok with ⟨-, -, -, rfl⟩
      simp only [TWindow.oneAxisAll]
      rfl

/-- `hsplit` on an already-split node leaves the node's own axis
unchanged. -/
lemma hsplit_axis (per : ℚ) (n n2 : TWindow)
    (hs : TWindow.issplitted n = true)
    (hok : TWindow.hsplit per n = Except.ok n2) :
    TWindow.axisOf n2 = TWindow.axisOf n := by
  cases n with
  | mk r c h w t hsp wsp d =>
    cases hsp with
    | some pr =>
        obtain ⟨a, b⟩ := pr
        rw [TWindow.hsplit] at hok
        cases e1 : TWindow.hsplit per a with
        | error err =>
            cases e2 : TWindow.hsplit per b with
            | error err2 => rw [e1, e2] at hok; cases hok
            | ok b2 => rw [e1, e2] at hok; cases hok
        | ok a2 =>
            cases e2 : TWindow.hsplit per b with
            | error err2 => rw [e1, e2] at hok; cases hok
            | ok b2 =>
                rw [e1, e2] at hok
                cases hok
                rfl
    | none =>
      cases wsp with
      | some pr =>
          obtain ⟨a, b⟩ := pr
          rw [TWindow.hsplit] at hok
          cases e1 : TWindow.hsplit per a with
          | error err =>
              cases e2 : TWindow.hsplit per b with
              | error err2 => rw [e1, e2] at hok; cases hok
              | ok b2 => rw [e1, e2] at hok; cases hok
          | ok a2 =>
              cases e2 : TWindow.hsplit per b with
              | error err2 => rw [e1, e2] at hok; cases hok
              | ok b2 =>
                  rw [e1, e2] at hok
                  cases hok
                  rfl
      | none =>
          simp [TWindow.issplitted, TWindow.hsplOf, TWindow.wsplOf] at hs

/-- `wsplit` on an already-split node leaves the node's own axis
unchanged. -/
lemma wsplit_axis (per : ℚ) (n n2 : TWindow)
    (hs : TWindow.issplitted n = true)
    (hok : TWindow.wsplit per n = Except.ok n2) :
    TWindow.axisOf n2 = TWindow.axisOf n := by
  cases n with
  | mk r c h w t hsp wsp d =>
    cases hsp with
    | some pr =>
        obtain ⟨a, b⟩ := pr
        rw [TWindow.wsplit] at hok
        cases e1 : TWindow.wsplit per a with
        | error err =>
            cases e2 : TWindow.wsplit per b with
            | error err2 => rw [e1, e2] at hok; cases hok
            | ok b2 => rw [e1, e2] at hok; cases hok
        | ok a2 =>
            cases e2 : TWindow.wsplit per b with
            | error err2 => rw [e1, e2] at hok; cases hok
            | ok b2 =>
                rw [e1, e2] at hok
                cases hok
                rfl
    | none =>
      cases wsp with
      | some pr =>
          obtain ⟨a, b⟩ := pr
          rw [TWindow.wsplit] at hok
          cases e1 : TWindow.wsplit per a with
          | error err =>
              cases e2 : TWindow.wsplit per b with
              | error err2 => rw [e1, e2] at hok; cases hok
              | ok b2 => rw [e1, e2] at hok; cases hok
          | ok a2 =>
              cases e2 : TWindow.wsplit per b with
              | error err2 => rw [e1, e2] at hok; cases hok
              | ok b2 =>
                  rw [e1, e2] at hok
                  cases hok
                  rfl
      | none =>
          simp [TWindow.issplitted, TWindow.hsplOf, TWindow.wsplOf] at hs

/-- C10: every node reachable from a freshly constructed window by any
sequence of successful `hsplit`/`wsplit` calls has at most one of
its split fields set (every node is split along exactly one axis or
none), and a later split call on an already-split node never
reassigns its own axis — it only recurses into the children. -/
theorem C10_one_axis_invariant (r c h w : Nat) (t : String)
    (n0 n : TWindow)
    (hinit : TWindow.construct r c h w t = Except.ok n0)
    (hr : Reach n0 n) :
    TWindow.oneAxisAll n = true ∧
    (TWindow.issplitted n = true →
      ∀ per n2,
        (TWindow.hsplit per n = Except.ok n2 →
          TWindow.axisOf n2 = TWindow.axisOf n) ∧
        (TWindow.wsplit per n = Except.ok n2 →
          TWindow.axisOf n2 = TWindow.axisOf n)) := by
  constructor
  · have h0 : TWindow.oneAxisAll n0 = true := by
      rcases construct_ok_iff.mp hinit with ⟨-, -, rfl⟩
      rfl
    clear hinit
    induction hr with
    | refl m => exact h0
    | hstep per a m k hreach hok ih =>
        exact oneAxisAll_hsplit per m k (ih h0) hok
    | wstep per a m k hreach hok ih =>
        exact oneAxisAll_wsplit per m k (ih h0) hok
  · intro hs per n2
    exact ⟨fun hok => hsplit_axis per n n2 hs hok,
      fun hok => wsplit_axis per n n2 hs hok⟩

/-- C10 witness start node: a freshly constructed 5×8 window. -/
def C10start : TWindow := exOkW (TWindow.construct 1 1 5 8 "x")

/-- C10 witness node: the start node after one `hsplit(0.5)`. -/
def C10res : TWindow := exOkW (TWindow.hsplit (1/2) C10start)

/-- C10 witness: a window reached by one `hsplit(0.5)` from a fresh
5×8 leaf satisfies the one-axis invariant and keeps its axis under
further splits. -/
theorem C10_witness :
    TWindow.construct 1 1 5 8 "x" = Except.ok C10start ∧
    (TWindow.oneAxisAll C10res = true ∧
      (TWindow.issplitted C10res = true →
        ∀ per n2,
          (TWindow.hsplit per C10res = Except.ok n2 →
            TWindow.axisOf n2 = TWindow.axisOf C10res) ∧
          (TWindow.wsplit per C10res = Except.ok n2 →
            TWindow.axisOf n2 = TWindow.axisOf C10res))) := by
  have hpy : pyInt (((8 : Nat) : ℚ) * (1/2)) = 4 :=
    pyInt_eq (by norm_num) (by norm_num)
  have heq := hsplit_leaf_eq (1/2) 1 1 5 8 "x" (blankBuf 3 6)
    (by omega) (by rw [hpy]; omega) (by rw [hpy]; omega)
  rw [hpy] at heq
  have hres : C10res = TWindow.mk 1 1 5 8 "x"
      (Option.some
        (TWindow.mk 1 1 5 4 "x" Option.none Option.none (blankBuf 3 2),
         TWindow.mk 1 5 5 4 "x" Option.none Option.none (blankBuf 3 2)))
      Option.none (blankBuf 3 6) := by
    show exOkW (TWindow.hsplit (1/2)
      (TWindow.mk 1 1 5 8 "x" Option.none Option.none (blankBuf 3 6))) = _
    rw [heq]
    rfl
  have hok : TWindow.hsplit (1/2) C10start = Except.ok C10res := by
    rw [hres]
    exact heq
  exact ⟨rfl, C10_one_axis_invariant 1 1 5 8 "x" C10start C10res rfl
    (Reach.hstep (1/2) C10start C10start C10res (Reach.refl C10start) hok)⟩

/-- C6: calling `hsplit` or `wsplit` on an already-split node recurses
the same call with the same fraction into both existing children
instead of replacing the existing split: the node's own rectangle,
title and split axis stay, its stored children become exactly the
recursively split children (also when the new call's axis differs
from the stored split's axis), and the leaf grid doubles. -/
theorem C6_repeated_split_recurses (per : ℚ) (n : TWindow)
    (hs : TWindow.issplitted n = true) :
    (∀ n2, TWindow.hsplit per n = Except.ok n2 →
      TWindow.rectOf n2 = TWindow.rectOf n ∧
      TWindow.titleOf n2 = TWindow.titleOf n ∧
      TWindow.leafCount n2 = 2 * TWindow.leafCount n ∧
      (∀ a b, TWindow.hsplOf n = Option.some (a, b) →
        ∃ a2 b2, TWindow.hsplit per a = Except.ok a2 ∧
          TWindow.hsplit per b = Except.ok b2 ∧
          TWindow.hsplOf n2 = Option.some (a2, b2) ∧
          TWindow.wsplOf n2 = TWindow.wsplOf n) ∧
      (TWindow.hsplOf n = Option.none →
        ∀ a b, TWindow.wsplOf n = Option.some (a, b) →
        ∃ a2 b2, TWindow.hsplit per a = Except.ok a2 ∧
          TWindow.hsplit per b = Except.ok b2 ∧
          TWindow.wsplOf n2 = Option.some (a2, b2) ∧
          TWindow.hsplOf n2 = Option.none)) ∧
    (∀ n2, TWindow.wsplit per n = Except.ok n2 →
      TWindow.rectOf n2 = TWindow.rectOf n ∧
      TWindow.titleOf n2 = TWindow.titleOf n ∧
      TWindow.leafCount n2 = 2 * TWindow.leafCount n ∧
      (∀ a b, TWindow.hsplOf n = Option.some (a, b) →
        ∃ a2 b2, TWindow.wsplit per a = Except.ok a2 ∧
          TWindow.wsplit per b = Except.ok b2 ∧
          TWindow.hsplOf n2 = Option.some (a2, b2) ∧
          TWindow.wsplOf n2 = TWindow.wsplOf n) ∧
      (TWindow.hsplOf n = Option.none →
        ∀ a b, TWindow.wsplOf n = Option.some (a, b) →
        ∃ a2 b2, TWindow.wsplit per a = Except.ok a2 ∧
          TWindow.wsplit per b = Except.ok b2 ∧
          TWindow.wsplOf n2 = Option.some (a2, b2) ∧
          TWindow.hsplOf n2 = Option.none)) := by
  cases n with
  | mk r c h w t hsp wsp d =>
    constructor
    · intro n2 hok
      have hlc := hsplit_leafCount per _ _ hok
      cases hsp with
      | some pr =>
          obtain ⟨a, b⟩ := pr
          rw [TWindow.hsplit] at hok
          cases e1 : TWindow.hsplit per a with
          | error err =>
              cases e2 : TWindow.hsplit per b with
              | error err2 => rw [e1, e2] at hok; cases hok
              | ok b2 => rw [e1, e2] at hok; cases hok
          | ok a2 =>
              cases e2 : TWindow.hsplit per b with
              | error err2 => rw [e1, e2] at hok; cases hok
              | ok b2 =>
                  rw [e1, e2] at hok
                  cases hok
                  refine ⟨rfl, rfl, hlc, ?_, ?_⟩
                  · intro a' b' hch
                    rw [TWindow.hsplOf] at hch
                    injection hch with h1
                    injection h1 with h2 h3
                    subst h2
                    subst h3
                    exact ⟨a2, b2, e1, e2, rfl, rfl⟩
                  · intro hnone
                    rw [TWindow.hsplOf] at hnone
                    cases hnone
      | none =>
        cases wsp with
        | some pr =>
            obtain ⟨a, b⟩ := pr
            rw [TWindow.hsplit] at hok
            cases e1 : TWindow.hsplit per a with
            | error err =>
                cases e2 : TWindow.hsplit per b with
                | error err2 => rw [e1, e2] at hok; cases hok
                | ok b2 => rw [e1, e2] at hok; cases hok
            | ok a2 =>
                cases e2 : TWindow.hsplit per b with
                | error err2 => rw [e1, e2] at hok; cases hok
                | ok b2 =>
                    rw [e1, e2] at hok
                    cases hok
                    refine ⟨rfl, rfl, hlc, ?_, ?_⟩
                    · intro a' b' hch
                      rw [TWindow.hsplOf] at hch
                      cases hch
                    · intro hnone a' b' hch
                      rw [TWindow.wsplOf] at hch
                      injection hch with h1
                      injection h1 with h2 h3
                      subst h2
                      subst h3
                      exact ⟨a2, b2, e1, e2, rfl, rfl⟩
        | none =>
            simp [TWindow.issplitted, TWindow.hsplOf, TWindow.wsplOf] at hs
    · intro n2 hok
      have hlc := wsplit_leafCount per _ _ hok
      cases hsp with
      | some pr =>
          obtain ⟨a, b⟩ := pr
          rw [TWindow.wsplit] at hok
          cases e1 : TWindow.wsplit per a with
          | error err =>
              cases e2 : TWindow.wsplit per b with
              | error err2 => rw [e1, e2] at hok; cases hok
              | ok b2 => rw [e1, e2] at hok; cases hok
          | ok a2 =>
              cases e2 : TWindow.wsplit per b with
              | error err2 => rw [e1, e2] at hok; cases hok
              | ok b2 =>
                  rw [e1, e2] at hok
                  cases hok
                  refine ⟨rfl, rfl, hlc, ?_, ?_⟩
                  · intro a' b' hch
                    rw [TWindow.hsplOf] at hch
                    injection hch with h1
                    injection h1 with h2 h3
                    subst h2
                    subst h3
                    exact ⟨a2, b2, e1, e2, rfl, rfl⟩
                  · intro hnone
                    rw [TWindow.hsplOf] at hnone
                    cases hnone
      | none =>
        cases wsp with
        | some pr =>
            obtain ⟨a, b⟩ := pr
            rw [TWindow.wsplit] at hok
            cases e1 : TWindow.wsplit per a with
            | error err =>
                cases e2 : TWindow.wsplit per b with
                | error err2 => rw [e1, e2] at hok; cases hok
                | ok b2 => rw [e1, e2] at hok; cases hok
            | ok a2 =>
                cases e2 : TWindow.wsplit per b with
                | error err2 => rw [e1, e2] at hok; cases hok
                | ok b2 =>
                    rw [e1, e2] at hok
                    cases hok
                    refine ⟨rfl, rfl, hlc, ?_, ?_⟩
                    · intro a' b' hch
                      rw [TWindow.hsplOf] at hch
                      cases hch
                    · intro hnone a' b' hch
                      rw [TWindow.wsplOf] at hch
                      injection hch with h1
                      injection h1 with h2 h3
                      subst h2
                      subst h3
                      exact ⟨a2, b2, e1, e2, rfl, rfl⟩
        | none =>
            simp [TWindow.issplitted, TWindow.hsplOf, TWindow.wsplOf] at hs

/-- C6 witness: left child of an already-hsplit 5×8 window. -/
def C6A : TWindow :=
  TWindow.mk 1 1 5 4 "" Option.none Option.none (blankBuf 3 2)

/-- C6 witness: right child of an already-hsplit 5×8 window. -/
def C6B : TWindow :=
  TWindow.mk 1 5 5 4 "" Option.none Option.none (blankBuf 3 2)

/-- C6 witness: a 5×8 window already split by `hsplit` into `C6A` and
`C6B`. -/
def C6win : TWindow :=
  TWindow.mk 1 1 5 8 "" (Option.some (C6A, C6B)) Option.none (blankBuf 3 6)

/-- C6 witness: the already-split window after another `hsplit(0.5)`. -/
def C6hres : TWindow := exOkW (TWindow.hsplit (1/2) C6win)

/-- C6 witness: the already-hsplit window after a `wsplit(0.5)` (the
mixed-axis case). -/
def C6wres : TWindow := exOkW (TWindow.wsplit (1/2) C6win)

/-- C6 witness: splitting the already-hsplit 5×8 window again (same
axis or mixed axis) recurses into both stored children, keeps the
node's own fields, and doubles the leaf grid. -/
theorem C6_witness :
    TWindow.issplitted C6win = true ∧
    (TWindow.rectOf C6hres = TWindow.rectOf C6win ∧
      TWindow.titleOf C6hres = TWindow.titleOf C6win ∧
      TWindow.leafCount C6hres = 2 * TWindow.leafCount C6win ∧
      (∀ a b, TWindow.hsplOf C6win = Option.some (a, b) →
        ∃ a2 b2, TWindow.hsplit (1/2) a = Except.ok a2 ∧
          TWindow.hsplit (1/2) b = Except.ok b2 ∧
          TWindow.hsplOf C6hres = Option.some (a2, b2) ∧
          TWindow.wsplOf C6hres = TWindow.wsplOf C6win) ∧
      (TWindow.hsplOf C6win = Option.none →
        ∀ a b, TWindow.wsplOf C6win = Option.some (a, b) →
        ∃ a2 b2, TWindow.hsplit (1/2) a = Except.ok a2 ∧
          TWindow.hsplit (1/2) b = Except.ok b2 ∧
          TWindow.wsplOf C6hres = Option.some (a2, b2) ∧
          TWindow.hsplOf C6hres = Option.none)) ∧
    (TWindow.rectOf C6wres = TWindow.rectOf C6win ∧
      TWindow.titleOf C6wres = TWindow.titleOf C6win ∧
      TWindow.leafCount C6wres = 2 * TWindow.leafCount C6win ∧
      (∀ a b, TWindow.hsplOf C6win = Option.some (a, b) →
        ∃ a2 b2, TWindow.wsplit (1/2) a = Except.ok a2 ∧
          TWindow.wsplit (1/2) b = Except.ok b2 ∧
          TWindow.hsplOf C6wres = Option.some (a2, b2) ∧
          TWindow.wsplOf C6wres = TWindow.wsplOf C6win) ∧
      (TWindow.hsplOf C6win = Option.none →
        ∀ a b, TWindow.wsplOf C6win = Option.some (a, b) →
        ∃ a2 b2, TWindow.wsplit (1/2) a = Except.ok a2 ∧
          TWindow.wsplit (1/2) b = Except.ok b2 ∧
          TWindow.wsplOf C6wres = Option.some (a2, b2) ∧
          TWindow.hsplOf C6wres = Option.none)) := by
  have hpy4 : pyInt (((4 : Nat) : ℚ) * (1/2)) = 2 :=
    pyInt_eq (by norm_num) (by norm_num)
  have hpy5 : pyInt (((5 : Nat) : ℚ) * (1/2)) = 2 :=
    pyInt_eq (by norm_num) (by norm_num)
  have eA := hsplit_leaf_eq (1/2) 1 1 5 4 "" (blankBuf 3 2)
    (by omega) (by rw [hpy4]) (by rw [hpy4])
  rw [hpy4] at eA
  have eB := hsplit_leaf_eq (1/2) 1 5 5 4 "" (blankBuf 3 2)
    (by omega) (by rw [hpy4]) (by rw [hpy4])
  rw [hpy4] at eB
  have eA2 : TWindow.hsplit (1/2) C6A = Except.ok
      (TWindow.mk 1 1 5 4 ""
        (Option.some
          (TWindow.mk 1 1 5 2 "" Option.none Option.none (blankBuf 3 0),
           TWindow.mk 1 3 5 2 "" Option.none Option.none (blankBuf 3 0)))
        Option.none (blankBuf 3 2)) := eA
  have eB2 : TWindow.hsplit (1/2) C6B = Except.ok
      (TWindow.mk 1 5 5 4 ""
        (Option.some
          (TWindow.mk 1 5 5 2 "" Option.none Option.none (blankBuf 3 0),
           TWindow.mk 1 7 5 2 "" Option.none Option.none (blankBuf 3 0)))
        Option.none (blankBuf 3 2)) := eB
  have heqh : TWindow.hsplit (1/2) C6win = Except.ok
      (TWindow.mk 1 1 5 8 ""
        (Option.some
          (TWindow.mk 1 1 5 4 ""
            (Option.some
              (TWindow.mk 1 1 5 2 "" Option.none Option.none (blankBuf 3 0),
               TWindow.mk 1 3 5 2 "" Option.none Option.none (blankBuf 3 0)))
            Option.none (blankBuf 3 2),
           TWindow.mk 1 5 5 4 ""
            (Option.some
              (TWindow.mk 1 5 5 2 "" Option.none Option.none (blankBuf 3 0),
               TWindow.mk 1 7 5 2 "" Option.none Option.none (blankBuf 3 0)))
            Option.none (blankBuf 3 2)))
        Option.none (blankBuf 3 6)) := by
    show TWindow.hsplit (1/2)
      (TWindow.mk 1 1 5 8 "" (Option.some (C6A, C6B)) Option.none
        (blankBuf 3 6)) = _
    rw [TWindow.hsplit, eA2, eB2]
  have eAw := wsplit_leaf_eq (1/2) 1 1 5 4 "" (blankBuf 3 2)
    (by rw [hpy5]) (by rw [hpy5]; omega) (by omega)
  rw [hpy5] at eAw
  have eBw := wsplit_leaf_eq (1/2) 1 5 5 4 "" (blankBuf 3 2)
    (by rw [hpy5]) (by rw [hpy5]; omega) (by omega)
  rw [hpy5] at eBw
  have eAw2 : TWindow.wsplit (1/2) C6A = Except.ok
      (TWindow.mk 1 1 5 4 "" Option.none
        (Option.some
          (TWindow.mk 1 1 2 4 "" Option.none Option.none (blankBuf 0 2),
           TWindow.mk 3 1 3 4 "" Option.none Option.none (blankBuf 1 2)))
        (blankBuf 3 2)) := eAw
  have eBw2 : TWindow.wsplit (1/2) C6B = Except.ok
      (TWindow.mk 1 5 5 4 "" Option.none
        (Option.some
          (TWindow.mk 1 5 2 4 "" Option.none Option.none (blankBuf 0 2),
           TWindow.mk 3 5 3 4 "" Option.none Option.none (blankBuf 1 2)))
        (blankBuf 3 2)) := eBw
  have heqw : TWindow.wsplit (1/2) C6win = Except.ok
      (TWindow.mk 1 1 5 8 ""
        (Option.some
          (TWindow.mk 1 1 5 4 "" Option.none
            (Option.some
              (TWindow.mk 1 1 2 4 "" Option.none Option.none (blankBuf 0 2),
               TWindow.mk 3 1 3 4 "" Option.none Option.none (blankBuf 1 2)))
            (blankBuf 3 2),
           TWindow.mk 1 5 5 4 "" Option.none
            (Option.some
              (TWindow.mk 1 5 2 4 "" Option.none Option.none (blankBuf 0 2),
               TWindow.mk 3 5 3 4 "" Option.none Option.none (blankBuf 1 2)))
            (blankBuf 3 2)))
        Option.none (blankBuf 3 6)) := by
    show TWindow.wsplit (1/2)
      (TWindow.mk 1 1 5 8 "" (Option.some (C6A, C6B)) Option.none
        (blankBuf 3 6)) = _
    rw [TWindow.wsplit, eAw2, eBw2]
  have hresh : C6hres = TWindow.mk 1 1 5 8 ""
      (Option.some
        (TWindow.mk 1 1 5 4 ""
          (Option.some
            (TWindow.mk 1 1 5 2 "" Option.none Option.none (blankBuf 3 0),
             TWindow.mk 1 3 5 2 "" Option.none Option.none (blankBuf 3 0)))
          Option.none (blankBuf 3 2),
         TWindow.mk 1 5 5 4 ""
          (Option.some
            (TWindow.mk 1 5 5 2 "" Option.none Option.none (blankBuf 3 0),
             TWindow.mk 1 7 5 2 "" Option.none Option.none (blankBuf 3 0)))
          Option.none (blankBuf 3 2)))
      Option.none (blankBuf 3 6) := by
    unfold C6hres
    rw [heqh]
    rfl
  have hresw : C6wres = TWindow.mk 1 1 5 8 ""
      (Option.some
        (TWindow.mk 1 1 5 4 "" Option.none
          (Option.some
            (TWindow.mk 1 1 2 4 "" Option.none Option.none (blankBuf 0 2),
             TWindow.mk 3 1 3 4 "" Option.none Option.none (blankBuf 1 2)))
          (blankBuf 3 2),
         TWindow.mk 1 5 5 4 "" Option.none
          (Option.some
            (TWindow.mk 1 5 2 4 "" Option.none Option.none (blankBuf 0 2),
             TWindow.mk 3 5 3 4 "" Option.none Option.none (blankBuf 1 2)))
          (blankBuf 3 2)))
      Option.none (blankBuf 3 6) := by
    unfold C6wres
    rw [heqw]
    rfl
  have hokh : TWindow.hsplit (1/2) C6win = Except.ok C6hres := by
    rw [hresh]
    exact heqh
  have hokw : TWindow.wsplit (1/2) C6win = Except.ok C6wres := by
    rw [hresw]
    exact heqw
  exact ⟨rfl, (C6_repeated_split_recurses (1/2) C6win rfl).1 C6hres hokh,
    (C6_repeated_split_recurses (1/2) C6win rfl).2 C6wres hokw⟩

/-- `setCell` keeps the number of buffer rows. -/
lemma length_setCell (d : Buf) (r c : Nat) (ch : Char) :
    (setCell d r c ch).length = d.length :=
  List.length_set d r _

/-- Reading a list after a `set`: changed at the set index when in
range, unchanged elsewhere. -/
lemma getD_set_list {α : Type} (l : List α) (i j : Nat) (a dflt : α) :
    (l.set i a).getD j dflt =
      if i = j ∧ i < l.length then a else l.getD j dflt := by
  rw [List.getD_eq_getElem?_getD, List.getD_eq_getElem?_getD,
    List.getElem?_set]
  by_cases h : i = j
  · subst h
    by_cases h2 : i < l.length
    · simp [h2]
    · simp [h2, List.getElem?_eq_none (le_of_not_lt h2)]
  · simp [h]

/-- `setCell` keeps the length of every buffer row. -/
lemma rowLen_setCell (d : Buf) (r c : Nat) (ch : Char) (r2 : Nat) :
    ((setCell d r c ch).getD r2 []).length = (d.getD r2 []).length := by
  unfold setCell
  rw [getD_set_list]
  by_cases h : r = r2 ∧ r < d.length
  · rw [if_pos h, List.length_set]
    rw [h.1]
  · rw [if_neg h]

/-- Reading the freshly written cell yields the written character. -/
lemma getCell_setCell_same (d : Buf) (r c : Nat) (ch : Char)
    (hr : r < d.length) (hc : c < (d.getD r []).length) :
    getCell (setCell d r c ch) r c = Option.some ch := by
  unfold getCell setCell
  rw [getD_set_list, if_pos ⟨rfl, hr⟩, getD_set_list, if_pos ⟨rfl, hc⟩]

/-- Writing one cell does not change any other cell. -/
lemma getCell_setCell_ne (d : Buf) (r c : Nat) (ch : Char) (r2 c2 : Nat)
    (hne : r ≠ r2 ∨ c ≠ c2) :
    getCell (setCell d r c ch) r2 c2 = getCell d r2 c2 := by
  unfold getCell setCell
  rw [getD_set_list]
  by_cases h : r = r2 ∧ r < d.length
  · obtain ⟨rfl, hlt⟩ := h
    have hc : c ≠ c2 := by
      rcases hne with h1 | h2
      · exact absurd rfl h1
      · exact h2
    rw [if_pos ⟨rfl, hlt⟩, getD_set_list,
      if_neg (fun hcc => hc hcc.1)]
  · rw [if_neg h]

/-- A successful `writeCells` preserves the buffer dimensions. -/
lemma writeCells_dims :
    ∀ (cells : List (Nat × Nat)) (msg : List Char) (d d2 : Buf),
      writeCells d cells msg = Except.ok d2 →
      d2.length = d.length ∧
      ∀ r2, ((d2.getD r2 []).length = (d.getD r2 []).length)
  | [], msg, d, d2, hok => by
      cases msg <;> cases hok <;> exact ⟨rfl, fun r2 => rfl⟩
  | (r, c) :: rest, [], d, d2, hok => by
      cases hok
  | (r, c) :: rest, ch :: ms, d, d2, hok => by
      rw [writeCells] at hok
      split at hok
      · have ih := writeCells_dims rest ms (setCell d r c ch) d2 hok
        refine ⟨?_, fun r2 => ?_⟩
        · rw [ih.1, length_setCell]
        · rw [ih.2 r2, rowLen_setCell]
      · cases hok

/-- `writeCells` succeeds whenever every cell is in range and the
message supplies exactly one character per cell. -/
lemma writeCells_ok :
    ∀ (cells : List (Nat × Nat)) (msg : List Char) (d : Buf),
      (∀ p ∈ cells, p.1 < d.length ∧ p.2 < (d.getD p.1 []).length) →
      cells.length = msg.length →
      ∃ d2, writeCells d cells msg = Except.ok d2
  | [], [], d, hb, hlen => ⟨d, rfl⟩
  | [], ch :: ms, d, hb, hlen => by cases hlen
  | (r, c) :: rest, [], d, hb, hlen => by cases hlen
  | (r, c) :: rest, ch :: ms, d, hb, hlen => by
      have hhead := hb (r, c) (List.mem_cons_self _ _)
      have hrest : ∀ p ∈ rest, p.1 < (setCell d r c ch).length ∧
          p.2 < ((setCell d r c ch).getD p.1 []).length := by
        intro p hp
        have := hb p (List.mem_cons_of_mem _ hp)
        rw [length_setCell, rowLen_setCell]
        exact this
      obtain ⟨d2, hd2⟩ := writeCells_ok rest ms (setCell d r c ch) hrest
        (by simpa using hlen)
      refine ⟨d2, ?_⟩
      rw [writeCells, if_pos hhead]
      exact hd2

/-- Cells not in the written list are untouched by `writeCells`. -/
lemma writeCells_frame :
    ∀ (cells : List (Nat × Nat)) (msg : List Char) (d d2 : Buf),
      writeCells d cells msg = Except.ok d2 →
      ∀ r2 c2, (∀ p ∈ cells, p ≠ (r2, c2)) →
        getCell d2 r2 c2 = getCell d r2 c2
  | [], msg, d, d2, hok, r2, c2, hnot => by
      cases msg <;> cases hok <;> rfl
  | (r, c) :: rest, [], d, d2, hok, r2, c2, hnot => by
      cases hok
  | (r, c) :: rest, ch :: ms, d, d2, hok, r2, c2, hnot => by
      rw [writeCells] at hok
      split at hok
      · have ih := writeCells_frame rest ms (setCell d r c ch) d2 hok r2 c2
          (fun p hp => hnot p (List.mem_cons_of_mem _ hp))
        rw [ih]
        apply getCell_setCell_ne
        have hne := hnot (r, c) (List.mem_cons_self _ _)
        by_cases h : r = r2
        · subst h
          right
          intro hc
          exact hne (by rw [hc])
        · exact Or.inl h
      · cases hok

/-- Reading back the written cells, in write order, yields the
message. -/
lemma writeCells_read :
    ∀ (cells : List (Nat × Nat)) (msg : List Char) (d d2 : Buf),
      writeCells d cells msg = Except.ok d2 →
      cells.Nodup →
      (∀ p ∈ cells, p.1 < d.length ∧ p.2 < (d.getD p.1 []).length) →
      cells.length = msg.length →
      cells.map (fun p => getCell d2 p.1 p.2) = msg.map Option.some
  | [], [], d, d2, hok, hnd, hb, hlen => by cases hok; rfl
  | [], ch :: ms, d, d2, hok, hnd, hb, hlen => by cases hlen
  | (r, c) :: rest, [], d, d2, hok, hnd, hb, hlen => by cases hok
  | (r, c) :: rest, ch :: ms, d, d2, hok, hnd, hb, hlen => by
      rw [writeCells] at hok
      split at hok
      · rename_i hcond
        rw [List.nodup_cons] at hnd
        have hhead := hb (r, c) (List.mem_cons_self _ _)
        have hframe := writeCells_frame rest ms (setCell d r c ch) d2 hok r c
          (fun p hp heq => hnd.1 (heq ▸ hp))
        have hsame := getCell_setCell_same d r c ch hhead.1 hhead.2
        have hbrest : ∀ p ∈ rest, p.1 < (setCell d r c ch).length ∧
            p.2 < ((setCell d r c ch).getD p.1 []).length := by
          intro p hp
          have := hb p (List.mem_cons_of_mem _ hp)
          rw [length_setCell, rowLen_setCell]
          exact this
        have ih := writeCells_read rest ms (setCell d r c ch) d2 hok hnd.2
          hbrest (by simpa using hlen)
        simp only [List.map_cons]
        rw [hframe, hsame, ih]
      · cases hok

/-- A single-row span's cells are its final-row column range. -/
lemma spanCells_single (W : Nat) (p : TLog.LogPos)
    (heq : p.begin_row = p.end_row) :
    TLog.spanCells W p =
      (List.range' p.begin_col (p.end_col - p.begin_col)).map
        (fun col => (p.end_row, col)) := by
  unfold TLog.spanCells
  rw [show p.end_row + 1 - p.begin_row = 1 by omega, List.range'_one, heq]
  rw [List.flatMap_cons]
  unfold TLog.rowCells
  rw [if_pos rfl, List.flatMap_nil, List.append_nil]

/-- A multi-row span's cells start with a full first row followed by
the cells of the span shifted down one row. -/
lemma spanCells_cons (W : Nat) (p : TLog.LogPos)
    (hlt : p.begin_row < p.end_row) :
    TLog.spanCells W p =
      (List.range W).map (fun col => (p.begin_row, col)) ++
      TLog.spanCells W
        ⟨p.begin_row + 1, p.begin_col, p.end_row, p.end_col⟩ := by
  unfold TLog.spanCells
  rw [show p.end_row + 1 - p.begin_row
      = (p.end_row + 1 - (p.begin_row + 1)) + 1 by omega,
    List.range'_succ, List.flatMap_cons]
  congr 1
  unfold TLog.rowCells
  rw [if_neg (by omega)]

/-- Length of a span's cell list: full rows of width `W` plus the
final partial row. -/
lemma spanCells_length (W : Nat) :
    ∀ (n : Nat) (p : TLog.LogPos), p.end_row - p.begin_row = n →
      p.begin_row ≤ p.end_row →
      (TLog.spanCells W p).length =
        (p.end_row - p.begin_row) * W + (p.end_col - p.begin_col)
  | 0, p, hn, hle => by
      rw [spanCells_single W p (by omega), List.length_map,
        List.length_range']
      rw [hn]
      omega
  | n + 1, p, hn, hle => by
      rw [spanCells_cons W p (by omega), List.length_append,
        List.length_map, List.length_range]
      have ih := spanCells_length W n
        ⟨p.begin_row + 1, p.begin_col, p.end_row, p.end_col⟩
        (by dsimp only; omega) (by dsimp only; omega)
      dsimp only at ih
      rw [ih]
      rw [show p.end_row - p.begin_row = (p.end_row - (p.begin_row + 1)) + 1
        by omega, Nat.succ_mul]
      generalize (p.end_row - (p.begin_row + 1)) * W = k
      omega

/-- Every cell of a span lies between the span's first and last row. -/
lemma spanCells_rows (W : Nat) :
    ∀ (n : Nat) (p : TLog.LogPos), p.end_row - p.begin_row = n →
      p.begin_row ≤ p.end_row →
      ∀ q ∈ TLog.spanCells W p,
        p.begin_row ≤ q.1 ∧ q.1 ≤ p.end_row
  | 0, p, hn, hle => by
      rw [spanCells_single W p (by omega)]
      intro q hq
      rw [List.mem_map] at hq
      obtain ⟨col, -, rfl⟩ := hq
      omega
  | n + 1, p, hn, hle => by
      rw [spanCells_cons W p (by omega)]
      intro q hq
      rw [List.mem_append] at hq
      rcases hq with hq | hq
      · rw [List.mem_map] at hq
        obtain ⟨col, -, rfl⟩ := hq
        omega
      · have ih := spanCells_rows W n
          ⟨p.begin_row + 1, p.begin_col, p.end_row, p.end_col⟩
          (by dsimp only; omega) (by dsimp only; omega) q hq
        dsimp only at ih
        omega

/-- Every cell of a span with `begin_col = 0` and `end_col ≤ W` has
its column below `W`. -/
lemma spanCells_cols (W : Nat) :
    ∀ (n : Nat) (p : TLog.LogPos), p.end_row - p.begin_row = n →
      p.begin_row ≤ p.end_row → p.begin_col = 0 → p.end_col ≤ W →
      ∀ q ∈ TLog.spanCells W p, q.2 < W
  | 0, p, hn, hle, hbc, hec => by
      rw [spanCells_single W p (by omega)]
      intro q hq
      rw [List.mem_map] at hq
      obtain ⟨col, hcol, rfl⟩ := hq
      rw [List.mem_range'] at hcol
      obtain ⟨i, hi, rfl⟩ := hcol
      omega
  | n + 1, p, hn, hle, hbc, hec => by
      rw [spanCells_cons W p (by omega)]
      intro q hq
      rw [List.mem_append] at hq
      rcases hq with hq | hq
      · rw [List.mem_map] at hq
        obtain ⟨col, hcol, rfl⟩ := hq
        rw [List.mem_range] at hcol
        exact hcol
      · exact spanCells_cols W n
          ⟨p.begin_row + 1, p.begin_col, p.end_row, p.end_col⟩
          (by dsimp only; omega) (by dsimp only; omega) hbc hec q hq

/-- A span's cell list has no duplicates. -/
lemma spanCells_nodup (W : Nat) :
    ∀ (n : Nat) (p : TLog.LogPos), p.end_row - p.begin_row = n →
      p.begin_row ≤ p.end_row →
      (TLog.spanCells W p).Nodup
  | 0, p, hn, hle => by
      rw [spanCells_single W p (by omega)]
      refine List.Nodup.map ?_ (List.nodup_range' _ _)
      intro x y hxy
      exact congrArg Prod.snd hxy
  | n + 1, p, hn, hle => by
      rw [spanCells_cons W p (by omega)]
      refine List.Nodup.append ?_ ?_ ?_
      · refine List.Nodup.map ?_ (List.nodup_range _)
        intro x y hxy
        exact congrArg Prod.snd hxy
      · exact spanCells_nodup W n
          ⟨p.begin_row + 1, p.begin_col, p.end_row, p.end_col⟩
          (by dsimp only; omega) (by dsimp only; omega)
      · intro q hq1 hq2
        rw [List.mem_map] at hq1
        obtain ⟨col, -, rfl⟩ := hq1
        have := spanCells_rows W n
          ⟨p.begin_row + 1, p.begin_col, p.end_row, p.end_col⟩
          (by dsimp only; omega) (by dsimp only; omega) _ hq2
        dsimp only at this
        omega

/-- Every `LogPos` spans at least one row. -/
lemma rowsOf_pos (W L : Nat) : 1 ≤ TLog.rowsOf W L := by
  unfold TLog.rowsOf
  split
  · omega
  · generalize L / W = q
    omega

/-- The computed span starts at the requested row. -/
lemma computeLogPos_begin_row (W s L : Nat) :
    (TLog.computeLogPos W s L).begin_row = s := by
  unfold TLog.computeLogPos
  split <;> rfl

/-- The computed span starts at column zero. -/
lemma computeLogPos_begin_col (W s L : Nat) :
    (TLog.computeLogPos W s L).begin_col = 0 := by
  unfold TLog.computeLogPos
  split <;> rfl

/-- The computed span covers `rowsOf W L` rows. -/
lemma computeLogPos_end_row (W s L : Nat) :
    (TLog.computeLogPos W s L).end_row + 1 = s + TLog.rowsOf W L := by
  unfold TLog.computeLogPos TLog.rowsOf
  by_cases hle : L ≤ W
  · rw [if_pos hle, if_pos hle]
  · rw [if_neg hle, if_neg hle]
    show s + L / W + 1 = s + (L / W + 1)
    generalize L / W = q
    omega

/-- The computed span's rows are well ordered. -/
lemma computeLogPos_le (W s L : Nat) :
    (TLog.computeLogPos W s L).begin_row ≤
      (TLog.computeLogPos W s L).end_row := by
  unfold TLog.computeLogPos
  split
  · show s ≤ s
    omega
  · show s ≤ s + L / W
    generalize L / W = q
    omega

/-- The computed span's final column stays within the content width. -/
lemma computeLogPos_end_col_le (W s L : Nat) (hW : 0 < W) :
    (TLog.computeLogPos W s L).end_col ≤ W := by
  unfold TLog.computeLogPos
  by_cases hle : L ≤ W
  · rw [if_pos hle]
    exact hle
  · rw [if_neg hle]
    show L - L / W * W ≤ W
    rw [sub_div_mul_eq_mod]
    exact le_of_lt (Nat.mod_lt _ hW)

/-- The span of a message of length `L` covers exactly `L` cells. -/
lemma spanCells_computeLogPos_length (W s L : Nat) :
    (TLog.spanCells W (TLog.computeLogPos W s L)).length = L := by
  unfold TLog.computeLogPos
  by_cases hle : L ≤ W
  · rw [if_pos hle]
    have hlen := spanCells_length W 0 ⟨s, 0, s, L⟩ (by dsimp only; omega)
      (by dsimp only; omega)
    dsimp only at hlen
    rw [hlen, Nat.sub_self, Nat.zero_mul]
    omega
  · rw [if_neg hle]
    show (TLog.spanCells W ⟨s, 0, s + L / W, L - L / W * W⟩).length = L
    have hlen := spanCells_length W (L / W) ⟨s, 0, s + L / W, L - L / W * W⟩
      (by dsimp only; generalize L / W = q; omega)
      (by dsimp only; generalize L / W = q; omega)
    dsimp only at hlen
    rw [hlen, show s + L / W - s = L / W by generalize L / W = q; omega]
    have h1 := Nat.div_mul_le_self L W
    generalize hk : L / W * W = k at *
    generalize L / W = q
    omega

/-- `totalRows` distributes over append. -/
lemma totalRows_append (W : Nat) (a b : List (List Char)) :
    TLog.totalRows W (a ++ b) = TLog.totalRows W a + TLog.totalRows W b := by
  unfold TLog.totalRows
  rw [List.map_append, List.sum_append]

/-- `totalRows` of a cons. -/
lemma totalRows_cons (W : Nat) (m : List Char) (ms : List (List Char)) :
    TLog.totalRows W (m :: ms) =
      TLog.rowsOf W m.length + TLog.totalRows W ms := by
  unfold TLog.totalRows
  rw [List.map_cons, List.sum_cons]

/-- The start row after appending a span is just past that span. -/
lemma startRow_concat (l : List TLog.LogPos) (p : TLog.LogPos) :
    TLog.startRow (l ++ [p]) = p.end_row + 1 := by
  unfold TLog.startRow
  rw [List.getLast?_concat]

/-- Invariant tying a log-window state to the list `done` of messages
already added: correct dimensions, one `LogPos` per message laid
out contiguously from row 0 (`startRow` equals the total row
count), and every stored span reads back as its message and lies
strictly below the next start row. -/
def LogInv (h w : Nat) (done : List (List Char)) (st : TLog.State) : Prop :=
  st.h = h ∧ st.w = w ∧
  st.data.length = h - 2 ∧
  (∀ r2, r2 < h - 2 → (st.data.getD r2 []).length = w - 2) ∧
  st.msg_coo.length = done.length ∧
  TLog.startRow st.msg_coo = TLog.totalRows (w - 2) done ∧
  ∀ i, i < done.length →
    TLog.readSpan st.data (w - 2) (st.msg_coo.getD i ⟨0, 0, 0, 0⟩) =
      (done.getD i []).map Option.some ∧
    ∀ q ∈ TLog.spanCells (w - 2) (st.msg_coo.getD i ⟨0, 0, 0, 0⟩),
      q.1 < TLog.startRow st.msg_coo

/-- `totalRows` of the empty message list. -/
lemma totalRows_nil (W : Nat) : TLog.totalRows W [] = 0 := rfl

/-- One `_add_msg` step preserves the invariant when the new message
still fits the viewport. -/
lemma addMsg_step (h w : Nat) (hW : 0 < w - 2) (done : List (List Char))
    (m : List Char) (data : Buf) (coo : List TLog.LogPos)
    (hinv : LogInv h w done ⟨h, w, data, coo⟩)
    (hfit : TLog.totalRows (w - 2) (done ++ [m]) ≤ h - 2) :
    ∃ st2, TLog.addMsg ⟨h, w, data, coo⟩ m = Except.ok st2 ∧
      LogInv h w (done ++ [m]) st2 := by
  obtain ⟨-, -, hdlen, hdrow, hclen, hstart, hspans⟩ := hinv
  dsimp only at hdlen hdrow hclen hstart hspans
  have hposbr := computeLogPos_begin_row (w - 2) (TLog.startRow coo) m.length
  have hposer := computeLogPos_end_row (w - 2) (TLog.startRow coo) m.length
  have hposle := computeLogPos_le (w - 2) (TLog.startRow coo) m.length
  have hposbc := computeLogPos_begin_col (w - 2) (TLog.startRow coo) m.length
  have hrp := rowsOf_pos (w - 2) m.length
  rw [totalRows_append, totalRows_cons, totalRows_nil] at hfit
  have hend : (TLog.computeLogPos (w - 2) (TLog.startRow coo)
      m.length).end_row < h - 2 := by
    omega
  have hbounds : ∀ q ∈ TLog.spanCells (w - 2)
      (TLog.computeLogPos (w - 2) (TLog.startRow coo) m.length),
      q.1 < data.length ∧ q.2 < (data.getD q.1 []).length := by
    intro q hq
    have hrow := spanCells_rows (w - 2) _ _ rfl hposle q hq
    have hcol := spanCells_cols (w - 2) _ _ rfl hposle hposbc
      (computeLogPos_end_col_le (w - 2) (TLog.startRow coo) m.length hW) q hq
    have hq1 : q.1 < h - 2 := by omega
    constructor
    · rw [hdlen]
      exact hq1
    · rw [hdrow q.1 hq1]
      exact hcol
  have hlen : (TLog.spanCells (w - 2)
      (TLog.computeLogPos (w - 2) (TLog.startRow coo) m.length)).length
      = m.length :=
    spanCells_computeLogPos_length (w - 2) (TLog.startRow coo) m.length
  have hnd := spanCells_nodup (w - 2) _
    (TLog.computeLogPos (w - 2) (TLog.startRow coo) m.length) rfl hposle
  obtain ⟨d2, hwr⟩ := writeCells_ok _ m data hbounds hlen
  have hdims := writeCells_dims _ _ _ _ hwr
  refine ⟨⟨h, w, d2,
    coo ++ [TLog.computeLogPos (w - 2) (TLog.startRow coo) m.length]⟩,
    ?_, rfl, rfl, ?_, ?_, ?_, ?_, ?_⟩
  · unfold TLog.addMsg TLog.redirectStrs
    dsimp only
    rw [hwr]
  · rw [hdims.1]
    exact hdlen
  · intro r2 hr2
    rw [hdims.2 r2]
    exact hdrow r2 hr2
  · show (coo ++ [_]).length = (done ++ [m]).length
    rw [List.length_append, List.length_append, hclen]
    rfl
  · show TLog.startRow (coo ++ [_]) = _
    rw [startRow_concat, totalRows_append, totalRows_cons, totalRows_nil,
      ← hstart]
    omega
  · intro i hi
    rw [List.length_append, List.length_singleton] at hi
    by_cases hih : i < done.length
    · have hicoo : i < coo.length := by omega
      have hcooi : (coo ++ [TLog.computeLogPos (w - 2) (TLog.startRow coo)
          m.length]).getD i ⟨0, 0, 0, 0⟩ = coo.getD i ⟨0, 0, 0, 0⟩ := by
        rw [List.getD_eq_getElem?_getD, List.getD_eq_getElem?_getD,
          List.getElem?_append_left hicoo]
      have hdonei : (done ++ [m]).getD i [] = done.getD i [] := by
        rw [List.getD_eq_getElem?_getD, List.getD_eq_getElem?_getD,
          List.getElem?_append_left hih]
      obtain ⟨hread, hrows⟩ := hspans i hih
      have hstartle : TLog.startRow coo ≤ TLog.startRow (coo ++
          [TLog.computeLogPos (w - 2) (TLog.startRow coo) m.length]) := by
        rw [startRow_concat]
        omega
      constructor
      · rw [hcooi, hdonei, ← hread]
        unfold TLog.readSpan
        apply List.map_congr_left
        intro q hq
        apply writeCells_frame _ _ _ _ hwr
        intro p hp heq
        have hq1 := hrows q hq
        have hp1 := (spanCells_rows (w - 2) _ _ rfl hposle p hp).1
        have : p.1 = q.1 := by rw [heq]
        omega
      · intro q hq
        rw [hcooi] at hq
        have hq1 := hrows q hq
        show q.1 < TLog.startRow (coo ++
          [TLog.computeLogPos (w - 2) (TLog.startRow coo) m.length])
        rw [startRow_concat]
        omega
    · have hieq : i = done.length := by omega
      subst hieq
      have hcooi : (coo ++ [TLog.computeLogPos (w - 2) (TLog.startRow coo)
          m.length]).getD done.length ⟨0, 0, 0, 0⟩
          = TLog.computeLogPos (w - 2) (TLog.startRow coo) m.length := by
        rw [List.getD_eq_getElem?_getD, ← hclen,
          List.getElem?_concat_length]
        rfl
      have hdonei : (done ++ [m]).getD done.length [] = m := by
        rw [List.getD_eq_getElem?_getD, List.getElem?_concat_length]
        rfl
      constructor
      · rw [hcooi, hdonei]
        unfold TLog.readSpan
        exact writeCells_read _ _ _ _ hwr hnd hbounds hlen
      · intro q hq
        rw [hcooi] at hq
        show q.1 < TLog.startRow (coo ++
          [TLog.computeLogPos (w - 2) (TLog.startRow coo) m.length])
        rw [startRow_concat]
        have := (spanCells_rows (w - 2) _ _ rfl hposle q hq).2
        omega

/-- A sequence of `_add_msg` calls whose total row budget fits the
viewport succeeds and preserves the invariant. -/
lemma addMsgs_inv (h w : Nat) (hW : 0 < w - 2) :
    ∀ (msgs done : List (List Char)) (st : TLog.State),
      LogInv h w done st →
      TLog.totalRows (w - 2) done + TLog.totalRows (w - 2) msgs ≤ h - 2 →
      ∃ st2, TLog.addMsgs st msgs = Except.ok st2 ∧
        LogInv h w (done ++ msgs) st2
  | [], done, st, hinv, hfit =>
      ⟨st, rfl, by rw [List.append_nil]; exact hinv⟩
  | m :: ms, done, st, hinv, hfit => by
      obtain ⟨sh, sw, data, coo⟩ := st
      have hh := hinv.1
      have hw2 := hinv.2.1
      dsimp only at hh hw2
      have hh2 : h = sh := hh.symm
      have hw22 : w = sw := hw2.symm
      subst hh2
      subst hw22
      have hfit1 : TLog.totalRows (w - 2) (done ++ [m]) ≤ h - 2 := by
        rw [totalRows_append, totalRows_cons, totalRows_nil]
        rw [totalRows_cons] at hfit
        omega
      obtain ⟨st2, hok, hinv2⟩ :=
        addMsg_step h w hW done m data coo hinv hfit1
      have hfit2 : TLog.totalRows (w - 2) (done ++ [m]) +
          TLog.totalRows (w - 2) ms ≤ h - 2 := by
        rw [totalRows_append, totalRows_cons, totalRows_nil]
        rw [totalRows_cons] at hfit
        omega
      obtain ⟨st3, hok3, hinv3⟩ :=
        addMsgs_inv h w hW ms (done ++ [m]) st2 hinv2 hfit2
      refine ⟨st3, ?_, ?_⟩
      · rw [TLog.addMsgs, hok]
        exact hok3
      · rw [List.append_assoc] at hinv3
        exact hinv3

/-- Round-trip specification for a batch of messages: the sequence of
`_add_msg` calls succeeds, stores one `LogPos` per message, and
reading every stored span back from the buffer (in write order)
reproduces the corresponding message exactly. -/
def RoundTrip (w : Nat) (msgs : List (List Char)) :
    Except Unit TLog.State → Prop
  | Except.error _ => False
  | Except.ok st =>
      st.msg_coo.length = msgs.length ∧
      ∀ i, i < msgs.length →
        TLog.readSpan st.data (w - 2) (st.msg_coo.getD i ⟨0, 0, 0, 0⟩) =
          (msgs.getD i []).map Option.some

/-- C8: for every sequence of messages whose cumulative row span does
not exceed the viewport height `h - 2`, all `_add_msg` calls
succeed and reading the buffer cells covered by each stored
`LogPos`, in order, reproduces each rendered message exactly,
including the wrap boundaries. -/
theorem C8_roundtrip (h w : Nat) (msgs : List (List Char))
    (hW : 0 < w - 2)
    (hfit : TLog.totalRows (w - 2) msgs ≤ h - 2) :
    RoundTrip w msgs (TLog.addMsgs (TLog.fresh h w) msgs) := by
  have hinv0 : LogInv h w [] (TLog.fresh h w) := by
    refine ⟨rfl, rfl, ?_, ?_, rfl, rfl, ?_⟩
    · exact List.length_replicate _ _
    · intro r2 hr2
      show ((blankBuf (h - 2) (w - 2)).getD r2 []).length = w - 2
      unfold blankBuf
      rw [List.getD_eq_getElem?_getD, List.getElem?_replicate, if_pos hr2,
        Option.getD_some]
      exact List.length_replicate _ _
    · intro i hi
      exact absurd hi (Nat.not_lt_zero i)
  obtain ⟨st2, hok, hinv2⟩ := addMsgs_inv h w hW msgs [] (TLog.fresh h w)
    hinv0 (by rw [totalRows_nil]; omega)
  rw [hok]
  rw [List.nil_append] at hinv2
  obtain ⟨-, -, -, -, hclen, -, hspans⟩ := hinv2
  exact ⟨hclen, fun i hi => (hspans i hi).1⟩

/-- C8 witness: a 3×3 log window (1×1 viewport) with the single
message "a" round-trips. -/
theorem C8_witness :
    0 < 3 - 2 ∧ TLog.totalRows (3 - 2) [['a']] ≤ 3 - 2 ∧
    RoundTrip 3 [['a']] (TLog.addMsgs (TLog.fresh 3 3) [['a']]) :=
  ⟨by decide, by decide, C8_roundtrip 3 3 [['a']] (by decide) (by decide)⟩
